import Mathlib

/-!
Shallow embedding of the UDI device-identity resolution engine of
`code/preprocess/preprocessor.py`: MAUDE preprocessing, manufacturer
normalization, registry lookup construction, the identifier mapping
(direct and secondary passes), the chunked matching transform, and the
fallback post-processing pass.  Nullable dataframe cells are modelled as
`Option String`, dataframes as lists of records.  Polars null semantics
are modelled explicitly: join keys never match on null
(`nulls_equal = false`), `concat_str` propagates null, `is_in` on a null
value is null, and a null mask in `filter` drops the row.
-/

namespace UdiEngine

/-- A nullable string cell of a dataframe column. -/
abbrev Cell := Option String

/-- Join-key equality: polars joins never match null keys. -/
def cellEq (a b : Cell) : Bool :=
  match a, b with
  | some x, some y => decide (x = y)
  | _, _ => false

/-- `pl.coalesce`: the first non-null value. -/
def coalesce : List Cell → Cell
  | [] => none
  | c :: cs =>
    match c with
    | some v => some v
    | none => coalesce cs

/-- `pl.concat_str` (default `ignore_nulls = False`): null if any part is null. -/
def concatStr : List Cell → Cell
  | [] => some ""
  | c :: cs =>
    match c, concatStr cs with
    | some s, some t => some (s ++ t)
    | _, _ => none

/-- `explode`-style bind on lists (`flat_map`). -/
def listBind (l : List α) (f : α → List β) : List β := (l.map f).flatten

/-- Whether `p` is an initial segment of `s`. -/
def hasPref : List Char → List Char → Bool
  | _, [] => true
  | [], _ :: _ => false
  | a :: s, b :: p => decide (a = b) && hasPref s p

/-- Whether `p` occurs contiguously inside `s`. -/
def hasSub (s p : List Char) : Bool :=
  match s with
  | [] => p.isEmpty
  | _ :: t => hasPref s p || hasSub t p

/-- `Expr.str.contains(pat, literal=True)` on non-null strings. -/
def strContains (s pat : String) : Bool := hasSub s.toList pat.toList

/-- One MAUDE adverse-event record, already cleansed, as consumed by
`UDIProcessor.preprocess_maude` (the columns used by the resolution engine). -/
structure MaudeRow where
  udi_di : Cell
  udi_public : Cell
  manufacturer : Cell
  brand : Cell
  catalog_number : Cell
  model_number : Cell
deriving DecidableEq

/-- MAUDE record after `preprocess_maude`: `extracted_di`, `udi_combined` and
`udi_source` added. -/
structure PreRow where
  udi_di : Cell
  udi_public : Cell
  manufacturer : Cell
  brand : Cell
  catalog_number : Cell
  model_number : Cell
  extracted_di : Cell
  udi_combined : Cell
  udi_source : String
deriving DecidableEq

/-- The `udi_source` when/then/otherwise chain of `preprocess_maude`. -/
def udiSourceOf (udi_di extracted : Cell) : String :=
  if udi_di.isSome then "original"
  else if extracted.isSome then "extracted"
  else "missing"

/-- `UDIProcessor.preprocess_maude`, per record.  The DI extraction from the
`udi_public` barcode field (`extract_di_from_public`, applied through
`map_elements`) is taken as a parameter `extractDi`; a failed extraction is
`none`. -/
def preprocessMaude (extractDi : Cell → Cell) (r : MaudeRow) : PreRow :=
  let e := extractDi r.udi_public
  { udi_di := r.udi_di
    udi_public := r.udi_public
    manufacturer := r.manufacturer
    brand := r.brand
    catalog_number := r.catalog_number
    model_number := r.model_number
    extracted_di := e
    udi_combined := coalesce [r.udi_di, e]
    udi_source := udiSourceOf r.udi_di e }

/-- MAUDE record after `apply_normalization`: `mfr_std` added. -/
structure NormRow where
  udi_di : Cell
  udi_public : Cell
  manufacturer : Cell
  brand : Cell
  catalog_number : Cell
  model_number : Cell
  extracted_di : Cell
  udi_combined : Cell
  udi_source : String
  mfr_std : Cell
deriving DecidableEq

/-- Dictionary lookup in an association list (a python dict built by
`fuzzy_match_dict`). -/
def dictGet (d : List (String × String)) (s : String) : Option String :=
  (d.find? (fun e => decide (e.1 = s))).map (·.2)

/-- `UDIProcessor.apply_normalization`: `pl.col('manufacturer').replace(mapping)`
— values outside the dictionary (and null) pass through unchanged. -/
def applyNormalization (d : List (String × String)) (r : PreRow) : NormRow :=
  { udi_di := r.udi_di
    udi_public := r.udi_public
    manufacturer := r.manufacturer
    brand := r.brand
    catalog_number := r.catalog_number
    model_number := r.model_number
    extracted_di := r.extracted_di
    udi_combined := r.udi_combined
    udi_source := r.udi_source
    mfr_std := r.manufacturer.map (fun s => (dictGet d s).getD s) }

/-- One UDI-DB registry record, already cleansed, after `preprocess_udi_db`
(the columns used by the engine; `secondary_ids` collects the
`identifiers_*_id` columns of the row in column order, nulls included, as
`pl.concat_list` does). -/
structure UdiRow where
  udi_di : Cell
  manufacturer : Cell
  brand : Cell
  catalog_number : Cell
  model_number : Cell
  publish_date : Cell
  secondary_ids : List Cell
deriving DecidableEq

/-- Modelled from the spec: `collect_unique_safe` (from `code.preprocess.preprocess`,
not in the sources) collects the distinct non-null values of a column — the
spec asks for pre-deduplicated sets of raw manufacturer strings. -/
def collectUnique (cells : List Cell) : List String := (cells.filterMap id).dedup

/-- Lexicographic order on character lists by code point. -/
def charListLt : List Char → List Char → Bool
  | [], [] => false
  | [], _ :: _ => true
  | _ :: _, [] => false
  | a :: s, b :: t =>
    decide (a.toNat < b.toNat) || (decide (a.toNat = b.toNat) && charListLt s t)

/-- Lexicographic order on strings. -/
def strLt (s t : String) : Bool := charListLt s.toList t.toList

/-- Modelled from the spec: candidate preference of `fuzzy_match_dict` — a
strictly larger similarity score wins, and on an exact score tie the
lexicographically smaller candidate name wins. -/
def betterCand (sim : String → String → Nat) (m c best : String) : Bool :=
  decide (sim m best < sim m c) || (decide (sim m c = sim m best) && strLt c best)

/-- Modelled from the spec: best registry-side candidate for one event-side
name, by approximate similarity with lexicographic tie-break. -/
def bestCand (sim : String → String → Nat) (m : String) : List String → Option String
  | [] => none
  | c :: cs =>
    match bestCand sim m cs with
    | none => some c
    | some b => if betterCand sim m c b then some c else some b

/-- Modelled from the spec: `fuzzy_match_dict` (from `code.preprocess.preprocess`,
not in the sources) maps every event-side manufacturer name to the best
registry-side name when its similarity clears the threshold, else to itself;
an empty candidate set yields the identity mapping. -/
def fuzzyMatchDict (sim : String → String → Nat) (threshold : Nat)
    (maudeNames udiNames : List String) : List (String × String) :=
  maudeNames.map (fun m =>
    (m, match bestCand sim m udiNames with
        | some b => if threshold ≤ sim m b then b else m
        | none => m))

/-- Modelled from the spec: `process_lazyframe_in_chunks` (from
`code.utils.chunk`, not in the sources) splits the rows into consecutive
chunks of at most `n` rows; fuel-driven so that it computes by reduction. -/
def splitChunksAux : Nat → Nat → List α → List (List α)
  | 0, _, l => [l]
  | _, _, [] => []
  | fuel + 1, n, l => l.take n :: splitChunksAux fuel n (l.drop n)

/-- The chunk partition of a row list (`chunk_size` rows per chunk). -/
def splitChunks (n : Nat) (l : List α) : List (List α) :=
  if n = 0 then [l] else splitChunksAux (l.length + 1) n l

/-- Entry of `mfr_lookup_full` (`build_lookup`, Lookup 2): registry grouped by
(manufacturer, brand, catalog_number); `n_versions_full` is
`pl.col('udi_di').len()`, the group row count. -/
structure FullRow where
  manufacturer : Cell
  brand : Cell
  catalog_number : Cell
  n_versions_full : Nat
  udi_list_full : List Cell
  model_list_full : List Cell
  date_list_full : List Cell
deriving DecidableEq

/-- Entry of `mfr_lookup_partial` (`build_lookup`, Lookup 3): registry grouped
by (manufacturer, brand). -/
structure PartRow where
  manufacturer : Cell
  brand : Cell
  n_versions_part : Nat
  udi_list_part : List Cell
  catalog_list_part : List Cell
  model_list_part : List Cell
  date_list_part : List Cell
deriving DecidableEq

/-- The distinct full composite keys of the registry (group_by keys; a null
component is a value, as in polars group_by). -/
def fullKeys (udi : List UdiRow) : List (Cell × Cell × Cell) :=
  (udi.map (fun r => (r.manufacturer, r.brand, r.catalog_number))).dedup

/-- The registry rows under one full composite key. -/
def fullGroup (udi : List UdiRow) (k : Cell × Cell × Cell) : List UdiRow :=
  udi.filter (fun r => decide ((r.manufacturer, r.brand, r.catalog_number) = k))

/-- `build_lookup`, Lookup 2: the full composite index. -/
def buildFull (udi : List UdiRow) : List FullRow :=
  (fullKeys udi).map (fun k =>
    let g := fullGroup udi k
    { manufacturer := k.1
      brand := k.2.1
      catalog_number := k.2.2
      n_versions_full := g.length
      udi_list_full := g.map (·.udi_di)
      model_list_full := g.map (·.model_number)
      date_list_full := g.map (·.publish_date) })

/-- The distinct partial composite keys of the registry. -/
def partKeys (udi : List UdiRow) : List (Cell × Cell) :=
  (udi.map (fun r => (r.manufacturer, r.brand))).dedup

/-- The registry rows under one partial composite key. -/
def partGroup (udi : List UdiRow) (k : Cell × Cell) : List UdiRow :=
  udi.filter (fun r => decide ((r.manufacturer, r.brand) = k))

/-- `build_lookup`, Lookup 3: the partial composite index. -/
def buildPart (udi : List UdiRow) : List PartRow :=
  (partKeys udi).map (fun k =>
    let g := partGroup udi k
    { manufacturer := k.1
      brand := k.2
      n_versions_part := g.length
      udi_list_part := g.map (·.udi_di)
      catalog_list_part := g.map (·.catalog_number)
      model_list_part := g.map (·.model_number)
      date_list_part := g.map (·.publish_date) })

/-- The distinct `udi_di` values of the registry, in first-occurrence grouping
order (null is a value, as in `unique`). -/
def primaryKeys (udi : List UdiRow) : List Cell := (udi.map (·.udi_di)).dedup

/-- The registry rows sharing one `udi_di` value. -/
def primaryGroup (udi : List UdiRow) (k : Cell) : List UdiRow :=
  udi.filter (fun r => decide (r.udi_di = k))

/-- `build_lookup`, Lookup 1: `unique(subset=['udi_di'])`.  Polars
`keep='any'` gives no guarantee of which duplicate row survives, so the
selection is a parameter `keep`; an admissible `keep` returns a member of the
group (see `AdmissibleKeep`). -/
def buildUdiDiLookup (keep : List UdiRow → Option UdiRow) (udi : List UdiRow) :
    List UdiRow :=
  (primaryKeys udi).filterMap (fun k => keep (primaryGroup udi k))

/-- A dedup selection is admissible when it picks an element of every
non-empty group. -/
def AdmissibleKeep (keep : List UdiRow → Option UdiRow) : Prop :=
  ∀ g : List UdiRow, g ≠ [] → ∃ x, x ∈ g ∧ keep g = some x

/-- The selection keeping the first row of each duplicate group. -/
def keepFirst : List UdiRow → Option UdiRow := List.head?

/-- The selection keeping the last row of each duplicate group. -/
def keepLast : List UdiRow → Option UdiRow := List.getLast?

/-- `build_udi_mapping`, Step 1: the distinct non-null `udi_combined` values of
the event corpus. -/
def uniqueUdis (maude : List NormRow) : List String :=
  ((maude.map (·.udi_combined)).dedup).filterMap id

/-- The primary-index row joined to one distinct identifier (`udi_di_lookup`
has unique `udi_di` keys by construction, so the left join is a lookup). -/
def primaryLookupFor (lookup : List UdiRow) (u : String) : Option UdiRow :=
  lookup.find? (fun r => decide (r.udi_di = some u))

/-- `build_udi_mapping`, Step 2: each distinct identifier with its joined
primary-index row. -/
def primaryJoined (lookup : List UdiRow) (maude : List NormRow) :
    List (String × Option UdiRow) :=
  (uniqueUdis maude).map (fun u => (u, primaryLookupFor lookup u))

/-- The `primary_matched` flag: the joined `manufacturer` column is non-null. -/
def primaryMatched (e : String × Option UdiRow) : Bool :=
  (e.2.bind (·.manufacturer)).isSome

/-- `primary_success`: identifiers whose direct join carries a manufacturer. -/
def primarySuccess (lookup : List UdiRow) (maude : List NormRow) :
    List (String × Option UdiRow) :=
  (primaryJoined lookup maude).filter primaryMatched

/-- `primary_failed`: identifiers left for the secondary pass. -/
def primaryFailed (lookup : List UdiRow) (maude : List NormRow) :
    List (String × Option UdiRow) :=
  (primaryJoined lookup maude).filter (fun e => !primaryMatched e)

/-- The raw identifier values of `primary_failed` (`failed_udi_list`). -/
def failedUdis (lookup : List UdiRow) (maude : List NormRow) : List String :=
  (primaryFailed lookup maude).map (·.1)

/-- Aggregate row of the secondary mapping (one secondary identifier value). -/
structure SecRow where
  secondary_list : String
  n_primary : Nat
  primary_udi : Cell
  manufacturer : Cell
  brand : Cell
  model_number : Cell
  catalog_number : Cell
deriving DecidableEq

/-- `build_secondary_mapping_chunk`: `concat_list` + `explode` + non-null
filter, as (secondary value, registry row) pairs, in row-major order. -/
def explodePairs (chunk : List UdiRow) : List (String × UdiRow) :=
  listBind chunk (fun r => (r.secondary_ids.filterMap id).map (fun s => (s, r)))

/-- `build_secondary_mapping_chunk`: keep only pairs whose secondary value is a
primary-failed identifier, then group by the secondary value; `n_primary` is
`pl.col('udi_di').n_unique()` within the chunk, the other aggregates take the
first row of the group. -/
def secondaryChunkTable (failed : List String) (chunk : List UdiRow) :
    List SecRow :=
  let pairs := (explodePairs chunk).filter (fun p => decide (p.1 ∈ failed))
  ((pairs.map (·.1)).dedup).map (fun s =>
    let g := (pairs.filter (fun p => decide (p.1 = s))).map (·.2)
    { secondary_list := s
      n_primary := ((g.map (·.udi_di)).dedup).length
      primary_udi := g.head?.bind (·.udi_di)
      manufacturer := g.head?.bind (·.manufacturer)
      brand := g.head?.bind (·.brand)
      model_number := g.head?.bind (·.model_number)
      catalog_number := g.head?.bind (·.catalog_number) })

/-- The concatenation of the per-chunk secondary tables, as written to the
temporary parquet file. -/
def secondaryConcatTables (failed : List String) (chunkSize : Nat)
    (udi : List UdiRow) : List SecRow :=
  listBind (splitChunks chunkSize udi) (secondaryChunkTable failed)

/-- `secondary_mapping_all`: re-group the concatenated chunk tables by the
secondary value, summing `n_primary` across chunks and taking the first
representative for the metadata. -/
def secondaryMerged (failed : List String) (chunkSize : Nat)
    (udi : List UdiRow) : List SecRow :=
  let t := secondaryConcatTables failed chunkSize udi
  ((t.map (·.secondary_list)).dedup).map (fun s =>
    let g := t.filter (fun e => decide (e.secondary_list = s))
    { secondary_list := s
      n_primary := (g.map (·.n_primary)).sum
      primary_udi := g.head?.bind (·.primary_udi)
      manufacturer := g.head?.bind (·.manufacturer)
      brand := g.head?.bind (·.brand)
      model_number := g.head?.bind (·.model_number)
      catalog_number := g.head?.bind (·.catalog_number) })

/-- One row of the `udi_mapping` table. -/
structure MappingRow where
  udi_combined : Cell
  mapped_primary_udi : Cell
  mapped_manufacturer : Cell
  mapped_brand : Cell
  mapped_model_number : Cell
  mapped_catalog_number : Cell
  udi_match_type : Cell
deriving DecidableEq

/-- The tri-valued `secondary_matched` mask `pl.col('n_primary') == 1` after
the left join: null when the identifier joined no merged secondary row. -/
def secFlagOf (e : Option SecRow) : Option Bool :=
  e.map (fun er => decide (er.n_primary = 1))

/-- `build_udi_mapping`, Steps 3–4.  `secCols` states whether the registry
schema exposes `identifiers_*_id` columns.  In the secondary branch the left
join of `primary_failed` with `secondary_mapping_all` suffixes the colliding
metadata columns, so `secondary_success_mapping` selects the (null) columns of
`primary_failed`, not the merged metadata; rows with a null
`secondary_matched` mask are dropped by both filters. -/
def buildUdiMapping (secCols : Bool) (chunkSize : Nat) (lookup : List UdiRow)
    (udi : List UdiRow) (maude : List NormRow) : List MappingRow :=
  let pSucc := primarySuccess lookup maude
  let pFail := primaryFailed lookup maude
  let primaryMapping : List MappingRow := pSucc.map (fun e =>
    { udi_combined := some e.1
      mapped_primary_udi := some e.1
      mapped_manufacturer := e.2.bind (·.manufacturer)
      mapped_brand := e.2.bind (·.brand)
      mapped_model_number := e.2.bind (·.model_number)
      mapped_catalog_number := e.2.bind (·.catalog_number)
      udi_match_type := some "udi_direct" })
  if secCols && !pFail.isEmpty then
    let merged := secondaryMerged (pFail.map (·.1)) chunkSize udi
    let flagged := pFail.map (fun e =>
      (e, merged.find? (fun er => decide (er.secondary_list = e.1))))
    let secSucc := flagged.filter (fun fe => decide (secFlagOf fe.2 = some true))
    let secFail := flagged.filter (fun fe => decide (secFlagOf fe.2 = some false))
    primaryMapping
      ++ secSucc.map (fun fe =>
        { udi_combined := some fe.1.1
          mapped_primary_udi := fe.2.bind (·.primary_udi)
          mapped_manufacturer := fe.1.2.bind (·.manufacturer)
          mapped_brand := fe.1.2.bind (·.brand)
          mapped_model_number := fe.1.2.bind (·.model_number)
          mapped_catalog_number := fe.1.2.bind (·.catalog_number)
          udi_match_type := some "udi_secondary" })
      ++ secFail.map (fun fe =>
        { udi_combined := some fe.1.1
          mapped_primary_udi := some fe.1.1
          mapped_manufacturer := none
          mapped_brand := none
          mapped_model_number := none
          mapped_catalog_number := none
          udi_match_type := some "udi_no_match" })
  else
    primaryMapping
      ++ pFail.map (fun e =>
        { udi_combined := some e.1
          mapped_primary_udi := some e.1
          mapped_manufacturer := none
          mapped_brand := none
          mapped_model_number := none
          mapped_catalog_number := none
          udi_match_type := some "udi_no_match" })

/-- Join predicate of `transform_chunk` Step 1 (`on='udi_combined'`). -/
def mapMatch (r : NormRow) (mr : MappingRow) : Bool :=
  cellEq r.udi_combined mr.udi_combined

/-- Join predicate of Step 2 (`['mfr_std','brand','catalog_number']` against
the full index keys). -/
def fullMatch (r : NormRow) (fr : FullRow) : Bool :=
  cellEq r.mfr_std fr.manufacturer && cellEq r.brand fr.brand
    && cellEq r.catalog_number fr.catalog_number

/-- Join predicate of Step 3 (`['mfr_std','brand']` against the partial index
keys). -/
def partMatch (r : NormRow) (pr : PartRow) : Bool :=
  cellEq r.mfr_std pr.manufacturer && cellEq r.brand pr.brand

/-- `matched_udi_full`: the single candidate when `n_versions_full == 1`
(`list.first()` of the candidate list), else null. -/
def matchedUdiFull (f : Option FullRow) : Cell :=
  match f with
  | some fr => if fr.n_versions_full = 1 then fr.udi_list_full.head?.join else none
  | none => none

/-- `matched_model_full`. -/
def matchedModelFull (f : Option FullRow) : Cell :=
  match f with
  | some fr => if fr.n_versions_full = 1 then fr.model_list_full.head?.join else none
  | none => none

/-- `matched_udi_partial`. -/
def matchedUdiPart (p : Option PartRow) : Cell :=
  match p with
  | some pr => if pr.n_versions_part = 1 then pr.udi_list_part.head?.join else none
  | none => none

/-- `matched_catalog_partial`. -/
def matchedCatalogPart (p : Option PartRow) : Cell :=
  match p with
  | some pr => if pr.n_versions_part = 1 then pr.catalog_list_part.head?.join else none
  | none => none

/-- `matched_model_partial`. -/
def matchedModelPart (p : Option PartRow) : Cell :=
  match p with
  | some pr => if pr.n_versions_part = 1 then pr.model_list_part.head?.join else none
  | none => none

/-- The joined `udi_match_type` column (null on a join miss). -/
def udiMatchType (m : Option MappingRow) : Cell := m.bind (·.udi_match_type)

/-- The joined `n_versions_full` column (null on a join miss). -/
def nVersionsFull (f : Option FullRow) : Option Nat := f.map (·.n_versions_full)

/-- The joined `n_versions_partial` column (null on a join miss). -/
def nVersionsPart (p : Option PartRow) : Option Nat := p.map (·.n_versions_part)

/-- The `match_source` when/then chain of `transform_chunk` Step 5; a null
comparison or a null count is falsy. -/
def matchSource (m : Option MappingRow) (f : Option FullRow) (p : Option PartRow) :
    String :=
  if udiMatchType m = some "udi_direct" then "udi_direct"
  else if udiMatchType m = some "udi_secondary" then "udi_secondary"
  else if (matchedUdiFull f).isSome then "mfr_full_single"
  else if (matchedUdiPart p).isSome then "mfr_partial_single"
  else if (nVersionsFull f).any (fun n => decide (1 < n)) then "mfr_full_multiple"
  else if (nVersionsPart p).any (fun n => decide (1 < n)) then "mfr_partial_multiple"
  else if udiMatchType m = some "udi_no_match" then "udi_no_match"
  else "no_match"

/-- Output row of `transform_chunk`: all original columns plus the five
derived columns and `match_source`. -/
structure ResolvedRow where
  orig : NormRow
  device_version_id : Cell
  manufacturer_final : Cell
  brand_final : Cell
  model_number_final : Cell
  catalog_number_final : Cell
  match_source : String
deriving DecidableEq

/-- Steps 4–5 of `transform_chunk` for one event row and its joined mapping,
full-index and partial-index rows. -/
def resolveRow (m : Option MappingRow) (f : Option FullRow) (p : Option PartRow)
    (r : NormRow) : ResolvedRow :=
  { orig := r
    device_version_id := coalesce
      [m.bind (·.mapped_primary_udi), matchedUdiFull f, matchedUdiPart p,
        r.udi_combined]
    manufacturer_final := coalesce [m.bind (·.mapped_manufacturer), r.manufacturer]
    brand_final := coalesce [m.bind (·.mapped_brand), r.brand]
    model_number_final := coalesce
      [m.bind (·.mapped_model_number), matchedModelFull f, matchedModelPart p]
    catalog_number_final := coalesce
      [m.bind (·.mapped_catalog_number), r.catalog_number, matchedCatalogPart p]
    match_source := matchSource m f p }

/-- A left join against one row: the matching right rows, or a single null
row when nothing matches. -/
def leftMatches (p : α → Bool) (tbl : List α) : List (Option α) :=
  match tbl.filter p with
  | [] => [none]
  | ms => ms.map some

/-- `transform_chunk`: the three cascaded left joins followed by the per-row
resolution (Steps 1–5). -/
def transformChunk (mapping : List MappingRow) (full : List FullRow)
    (part : List PartRow) (chunk : List NormRow) : List ResolvedRow :=
  listBind chunk (fun r =>
    listBind (leftMatches (mapMatch r) mapping) (fun m =>
      listBind (leftMatches (fullMatch r) full) (fun f =>
        (leftMatches (partMatch r) part).map (fun q => resolveRow m f q r))))

/-- `process_all`: the event corpus split in chunks, each transformed and the
outputs appended. -/
def processAll (mapping : List MappingRow) (full : List FullRow)
    (part : List PartRow) (chunkSize : Nat) (maude : List NormRow) :
    List ResolvedRow :=
  listBind (splitChunks chunkSize maude) (transformChunk mapping full part)

/-- The distinct `mfr_std` values of the resolved output (compliance group_by
keys; the null manufacturer is a group). -/
def mfrKeys (rows : List ResolvedRow) : List Cell :=
  (rows.map (·.orig.mfr_std)).dedup

/-- The per-manufacturer missing rate:
`pl.col('udi_combined').is_null().sum() / pl.len()` within the group. -/
def missingRate (rows : List ResolvedRow) (k : Cell) : ℚ :=
  let g := rows.filter (fun r => decide (r.orig.mfr_std = k))
  ((g.filter (fun r => decide (r.orig.udi_combined = none))).length : ℚ)
    / (g.length : ℚ)

/-- `low_compliance_mfrs`: manufacturers whose missing rate strictly exceeds
the configured threshold (`Config.LOW_COMPLIANCE_THRESHOLD`, default 0.50). -/
def lowComplianceMfrs (threshold : ℚ) (rows : List ResolvedRow) : List Cell :=
  (mfrKeys rows).filter (fun k => decide (threshold < missingRate rows k))

/-- Tri-valued `is_in`: null value gives a null mask, which is falsy in a
when/then chain. -/
def isInCell (x : Cell) (l : List Cell) : Option Bool :=
  x.map (fun v => decide (some v ∈ l))

/-- The match sources rewritten by the fallback pass. -/
def rewriteSet : List String := ["mfr_full_multiple", "mfr_partial_multiple", "no_match"]

/-- The Tier-3 `device_version_id` synthesis of `resolve_chunk`: keep a
non-null raw identifier, else `LOW_`/`UNK_` concatenation (null-propagating,
as `pl.concat_str`). -/
def tier3Id (lowMfrs : List Cell) (r : ResolvedRow) : Cell :=
  if r.orig.udi_combined.isSome then r.orig.udi_combined
  else if isInCell r.orig.mfr_std lowMfrs = some true then
    concatStr [some "LOW_", r.orig.mfr_std, some "_", r.brand_final]
  else
    concatStr [some "UNK_", r.orig.mfr_std, some "_", r.brand_final, some "_",
      r.catalog_number_final]

/-- The `udi_confidence` when/then chain of `resolve_chunk`. -/
def confidenceOf (source : String) (udi_combined : Cell) : String :=
  if source = "udi_direct" then "HIGH"
  else if strContains source "single" then "MEDIUM"
  else if strContains source "multiple" then "LOW"
  else if udi_combined.isSome then "MEDIUM"
  else "VERY_LOW"

/-- The ordinal rank of a confidence grade (HIGH > MEDIUM > LOW > VERY_LOW). -/
def rankConf : String → Nat
  | "HIGH" => 3
  | "MEDIUM" => 2
  | "LOW" => 1
  | _ => 0

/-- Final output row of `_post_process_complex_cases.resolve_chunk`. -/
structure FinalRow where
  orig : NormRow
  device_version_id : Cell
  manufacturer_final : Cell
  brand_final : Cell
  model_number_final : Cell
  catalog_number_final : Cell
  match_source : String
  udi_confidence : String
  final_source : String
deriving DecidableEq

/-- `resolve_chunk` for one row: rewrite `device_version_id` for the
multiple/no-match sources, grade the confidence, copy `match_source` to
`final_source`. -/
def resolveChunkRow (lowMfrs : List Cell) (r : ResolvedRow) : FinalRow :=
  { orig := r.orig
    device_version_id :=
      if r.match_source ∈ rewriteSet then tier3Id lowMfrs r
      else r.device_version_id
    manufacturer_final := r.manufacturer_final
    brand_final := r.brand_final
    model_number_final := r.model_number_final
    catalog_number_final := r.catalog_number_final
    match_source := r.match_source
    udi_confidence := confidenceOf r.match_source r.orig.udi_combined
    final_source := r.match_source }

/-- `_post_process_complex_cases`: compliance pass over the whole resolved
output, then the chunked rewrite pass. -/
def postProcess (threshold : ℚ) (chunkSize : Nat) (rows : List ResolvedRow) :
    List FinalRow :=
  let low := lowComplianceMfrs threshold rows
  listBind (splitChunks chunkSize rows) (fun c => c.map (resolveChunkRow low))

/-- The pipeline downstream of the primary-index dedup: `UDIProcessor.process`
steps 4–7 given the built `udi_di_lookup`. -/
def pipelineFromLookup (secCols : Bool) (chunkSize : Nat) (threshold : ℚ)
    (lookup : List UdiRow) (udi : List UdiRow) (norm : List NormRow) :
    List FinalRow :=
  let mapping := buildUdiMapping secCols chunkSize lookup udi norm
  let resolved := processAll mapping (buildFull udi) (buildPart udi) chunkSize norm
  postProcess threshold chunkSize resolved

/-- The whole `UDIProcessor.process` pipeline: preprocessing, fuzzy
manufacturer normalization, lookup construction (with the dedup selection
`keep`), identifier mapping, chunked matching, fallback post-processing. -/
def pipelineRun (extractDi : Cell → Cell) (sim : String → String → Nat)
    (fuzzyThreshold : Nat) (keep : List UdiRow → Option UdiRow) (secCols : Bool)
    (chunkSize : Nat) (threshold : ℚ) (maude : List MaudeRow)
    (udi : List UdiRow) : List FinalRow :=
  let pre := maude.map (preprocessMaude extractDi)
  let d := fuzzyMatchDict sim fuzzyThreshold
    (collectUnique (pre.map (·.manufacturer)))
    (collectUnique (udi.map (·.manufacturer)))
  let norm := pre.map (applyNormalization d)
  pipelineFromLookup secCols chunkSize threshold (buildUdiDiLookup keep udi) udi norm

/-- The mapping row joined to an event row (the mapping table has unique
`udi_combined` keys, so the left join is a lookup). -/
def mappingFor (mapping : List MappingRow) (r : NormRow) : Option MappingRow :=
  (mapping.filter (mapMatch r)).head?

/-- The full-index row joined to an event row. -/
def fullFor (full : List FullRow) (r : NormRow) : Option FullRow :=
  (full.filter (fullMatch r)).head?

/-- The partial-index row joined to an event row. -/
def partFor (part : List PartRow) (r : NormRow) : Option PartRow :=
  (part.filter (partMatch r)).head?

/-- The registry rows through which the secondary value `u` is reachable, in
exploded pair order (with multiplicity, as the explode produces them). -/
def viaRows (u : String) (l : List UdiRow) : List UdiRow :=
  ((explodePairs l).filter (fun p => decide (p.1 = u))).map (·.2)

/-- The number of distinct `udi_di` values (`n_unique`: null is a value)
reachable through the secondary value `u` within the rows `l`. -/
def viaDistinct (u : String) (l : List UdiRow) : Nat :=
  (((viaRows u l).map (·.udi_di)).dedup).length

/-- Stated from the spec, for comparison: the number of distinct primary
identifiers reachable through a secondary identifier across the entire
registry. -/
def reachableDistinct (udi : List UdiRow) (u : String) : Nat :=
  (((udi.filter (fun r => decide (some u ∈ r.secondary_ids))).map (·.udi_di)).dedup).length

/-- Stated from the spec, for comparison: the number of distinct primary
identifiers aggregated under a full composite key. -/
def distinctPrimariesFull (udi : List UdiRow) (k : Cell × Cell × Cell) : Nat :=
  (((fullGroup udi k).map (·.udi_di)).dedup).length

/-- Stated from the spec, for comparison: the number of distinct primary
identifiers aggregated under a partial composite key. -/
def distinctPrimariesPart (udi : List UdiRow) (k : Cell × Cell) : Nat :=
  (((partGroup udi k).map (·.udi_di)).dedup).length

/-- A DI extraction that always fails (every `udi_public` unparseable). -/
def noExtract : Cell → Cell := fun _ => none

/-- A degenerate similarity score (no fuzzy matches clear any threshold). -/
def simZero : String → String → Nat := fun _ _ => 0

/-- An event record with every identifying field null. -/
def rowNullEvent : MaudeRow :=
  { udi_di := none, udi_public := none, manufacturer := none, brand := none,
    catalog_number := none, model_number := none }

/-- An event record citing raw identifier `X` with full composite key
(`M`, `B`, `C`). -/
def rowEventX : MaudeRow :=
  { udi_di := some "X", udi_public := none, manufacturer := some "M",
    brand := some "B", catalog_number := some "C", model_number := none }

/-- An event record citing the registry primary identifier `U1`. -/
def rowEventU1 : MaudeRow :=
  { udi_di := some "U1", udi_public := none, manufacturer := some "M",
    brand := some "B", catalog_number := some "C", model_number := none }

/-- A registry record for primary identifier `U1` under (`M`, `B`, `C`). -/
def regU1 : UdiRow :=
  { udi_di := some "U1", manufacturer := some "M", brand := some "B",
    catalog_number := some "C", model_number := some "M1",
    publish_date := none, secondary_ids := [] }

/-- A registry record colliding on primary key `U1`, model `M2`. -/
def regU1v2 : UdiRow :=
  { udi_di := some "U1", manufacturer := some "M", brand := some "B",
    catalog_number := some "C", model_number := some "M2",
    publish_date := none, secondary_ids := [] }

/-- A registry record for primary `P` carrying secondary identifier `S`
(catalog `1`). -/
def regP1 : UdiRow :=
  { udi_di := some "P", manufacturer := some "M", brand := some "B",
    catalog_number := some "1", model_number := none, publish_date := none,
    secondary_ids := [some "S"] }

/-- A second registry record for the same primary `P`, again carrying
secondary identifier `S` (catalog `2`). -/
def regP2 : UdiRow :=
  { udi_di := some "P", manufacturer := some "M", brand := some "B",
    catalog_number := some "2", model_number := none, publish_date := none,
    secondary_ids := [some "S"] }

/-- The normalized event row citing only the secondary identifier `S`. -/
def normRowS : NormRow :=
  { udi_di := some "S", udi_public := none, manufacturer := none, brand := none,
    catalog_number := none, model_number := none, extracted_di := none,
    udi_combined := some "S", udi_source := "original", mfr_std := none }

/-- The normalized event row for `rowEventX`. -/
def normRowX : NormRow :=
  { udi_di := some "X", udi_public := none, manufacturer := some "M",
    brand := some "B", catalog_number := some "C", model_number := none,
    extracted_di := none, udi_combined := some "X", udi_source := "original",
    mfr_std := some "M" }

/-- A full-index entry with two candidates (ambiguous full key). -/
def fullRow2 : FullRow :=
  { manufacturer := some "M", brand := some "B", catalog_number := some "C",
    n_versions_full := 2, udi_list_full := [some "U1", some "U2"],
    model_list_full := [none, none], date_list_full := [none, none] }

/-- A partial-index entry with two candidates (ambiguous partial key). -/
def partRow2 : PartRow :=
  { manufacturer := some "M", brand := some "B", n_versions_part := 2,
    udi_list_part := [some "U1", some "U2"], catalog_list_part := [none, none],
    model_list_part := [none, none], date_list_part := [none, none] }

/-- A resolved record matched directly by identifier. -/
def resRowDirect : ResolvedRow :=
  { orig := normRowX, device_version_id := some "X",
    manufacturer_final := some "M", brand_final := some "B",
    model_number_final := none, catalog_number_final := some "C",
    match_source := "udi_direct" }

/-- A resolved record that fell to an ambiguous partial key. -/
def resRowPartMulti : ResolvedRow :=
  { orig := normRowX, device_version_id := some "X",
    manufacturer_final := some "M", brand_final := some "B",
    model_number_final := none, catalog_number_final := some "C",
    match_source := "mfr_partial_multiple" }

/-- An unmatched resolved record with a null identifier, manufacturer `A`. -/
def resRowNoMatch : ResolvedRow :=
  { orig := { udi_di := none, udi_public := none, manufacturer := some "A",
              brand := some "B", catalog_number := some "C", model_number := none,
              extracted_di := none, udi_combined := none, udi_source := "missing",
              mfr_std := some "A" },
    device_version_id := none, manufacturer_final := some "A",
    brand_final := some "B", model_number_final := none,
    catalog_number_final := some "C", match_source := "no_match" }

/-- The full-index entry built from the one-row registry `[regU1]`. -/
def fullRowU1 : FullRow :=
  { manufacturer := some "M", brand := some "B", catalog_number := some "C",
    n_versions_full := 1, udi_list_full := [some "U1"],
    model_list_full := [some "M1"], date_list_full := [none] }

/-- The mapping row produced for secondary identifier `S` on registry
`[regP1]`. -/
def mappingRowS : MappingRow :=
  { udi_combined := some "S", mapped_primary_udi := some "P",
    mapped_manufacturer := none, mapped_brand := none,
    mapped_model_number := none, mapped_catalog_number := none,
    udi_match_type := some "udi_secondary" }

theorem cellEq_iff {a b : Cell} : cellEq a b = true ↔ ∃ v, a = some v ∧ b = some v := by
  cases a <;> cases b <;> simp [cellEq]
  exact eq_comm

theorem cellEq_none {b : Cell} : cellEq none b = false := by cases b <;> rfl

theorem head?_some_mem {l : List α} {a : α} (h : l.head? = some a) : a ∈ l := by
  cases l with
  | nil => simp at h
  | cons x t => simp at h; simp [h]

theorem listBind_nil (f : α → List β) : listBind [] f = [] := rfl

theorem listBind_cons (a : α) (l : List α) (f : α → List β) :
    listBind (a :: l) f = f a ++ listBind l f := by
  simp [listBind]

theorem listBind_append (l₁ l₂ : List α) (f : α → List β) :
    listBind (l₁ ++ l₂) f = listBind l₁ f ++ listBind l₂ f := by
  simp [listBind]

theorem listBind_singleton (a : α) (f : α → List β) : listBind [a] f = f a := by
  simp [listBind]

/-- C10: after MAUDE preprocessing, `udi_combined` is the first non-null of
(`udi_di`, `extracted_di`), and `udi_source` is `original` iff `udi_di` is
non-null, `extracted` iff `udi_di` is null and `extracted_di` is non-null,
and `missing` otherwise; hence `udi_combined` is null iff `udi_source` is
`missing`. -/
theorem c10_identifier_provenance (extractDi : Cell → Cell) (r : MaudeRow) :
    (preprocessMaude extractDi r).udi_combined
        = coalesce [r.udi_di, extractDi r.udi_public] ∧
    (preprocessMaude extractDi r).extracted_di = extractDi r.udi_public ∧
    ((preprocessMaude extractDi r).udi_source = "original" ↔ r.udi_di.isSome) ∧
    ((preprocessMaude extractDi r).udi_source = "extracted" ↔
      r.udi_di = none ∧ (extractDi r.udi_public).isSome) ∧
    ((preprocessMaude extractDi r).udi_source = "missing" ↔
      r.udi_di = none ∧ extractDi r.udi_public = none) ∧
    ((preprocessMaude extractDi r).udi_combined = none ↔
      (preprocessMaude extractDi r).udi_source = "missing") := by
  simp only [preprocessMaude, udiSourceOf]
  rcases hd : r.udi_di with _ | v <;> rcases he : extractDi r.udi_public with _ | w <;>
    simp [coalesce, hd, he]

/-- C9: for any two resolved records, one matched `udi_direct` and one fallen
to `mfr_partial_multiple`, the confidence of the first ranks at least as high
as that of the second (HIGH > MEDIUM > LOW > VERY_LOW): the grading chain
gives HIGH for `udi_direct`, MEDIUM for a source containing `single` or for a
non-null identifier without cross-reference, LOW for a source containing
`multiple`, VERY_LOW otherwise. -/
theorem c9_confidence_ordering (low : List Cell) (r₁ r₂ : ResolvedRow)
    (h₁ : r₁.match_source = "udi_direct")
    (h₂ : r₂.match_source = "mfr_partial_multiple") :
    rankConf (resolveChunkRow low r₂).udi_confidence
        ≤ rankConf (resolveChunkRow low r₁).udi_confidence ∧
    (resolveChunkRow low r₁).udi_confidence = "HIGH" ∧
    (resolveChunkRow low r₂).udi_confidence = "LOW" ∧
    (∀ u, confidenceOf "mfr_full_single" u = "MEDIUM") ∧
    (∀ u, confidenceOf "mfr_partial_single" u = "MEDIUM") ∧
    (∀ v, confidenceOf "udi_no_match" (some v) = "MEDIUM") ∧
    (∀ v, confidenceOf "no_match" (some v) = "MEDIUM") ∧
    confidenceOf "no_match" none = "VERY_LOW" := by
  have hs1 : ∀ u, confidenceOf "udi_direct" u = "HIGH" := by
    intro u; simp [confidenceOf]
  have hs2 : ∀ u, confidenceOf "mfr_partial_multiple" u = "LOW" := by
    intro u
    have hb : strContains "mfr_partial_multiple" "single" = false := by decide
    have hc : strContains "mfr_partial_multiple" "multiple" = true := by decide
    simp [confidenceOf, hb, hc]
  refine ⟨?_, ?_, ?_, ?_, ?_, ?_, ?_, ?_⟩
  · simp [resolveChunkRow, h₁, h₂, hs1, hs2, rankConf]
  · simp [resolveChunkRow, h₁, hs1]
  · simp [resolveChunkRow, h₂, hs2]
  · intro u
    have hb : strContains "mfr_full_single" "single" = true := by decide
    simp [confidenceOf, hb]
  · intro u
    have hb : strContains "mfr_partial_single" "single" = true := by decide
    simp [confidenceOf, hb]
  · intro v
    have hb : strContains "udi_no_match" "single" = false := by decide
    have hc : strContains "udi_no_match" "multiple" = false := by decide
    simp [confidenceOf, hb, hc]
  · intro v
    have hb : strContains "no_match" "single" = false := by decide
    have hc : strContains "no_match" "multiple" = false := by decide
    simp [confidenceOf, hb, hc]
  · decide

/-- Witness for C9 at concrete records. -/
theorem c9_confidence_ordering_witness :
    resRowDirect.match_source = "udi_direct" ∧
    resRowPartMulti.match_source = "mfr_partial_multiple" ∧
    (rankConf (resolveChunkRow [] resRowPartMulti).udi_confidence
        ≤ rankConf (resolveChunkRow [] resRowDirect).udi_confidence ∧
      (resolveChunkRow [] resRowDirect).udi_confidence = "HIGH" ∧
      (resolveChunkRow [] resRowPartMulti).udi_confidence = "LOW" ∧
      (∀ u, confidenceOf "mfr_full_single" u = "MEDIUM") ∧
      (∀ u, confidenceOf "mfr_partial_single" u = "MEDIUM") ∧
      (∀ v, confidenceOf "udi_no_match" (some v) = "MEDIUM") ∧
      (∀ v, confidenceOf "no_match" (some v) = "MEDIUM") ∧
      confidenceOf "no_match" none = "VERY_LOW") :=
  ⟨rfl, rfl, c9_confidence_ordering [] resRowDirect resRowPartMulti rfl rfl⟩

theorem matchedUdiFull_isSome {f : Option FullRow}
    (h : (matchedUdiFull f).isSome = true) :
    ∃ fr, f = some fr ∧ fr.n_versions_full = 1 := by
  cases f with
  | none => simp [matchedUdiFull] at h
  | some fr =>
    by_cases hn : fr.n_versions_full = 1
    · exact ⟨fr, rfl, hn⟩
    · simp [matchedUdiFull, hn] at h

theorem matchedUdiPart_isSome {p : Option PartRow}
    (h : (matchedUdiPart p).isSome = true) :
    ∃ pr, p = some pr ∧ pr.n_versions_part = 1 := by
  cases p with
  | none => simp [matchedUdiPart] at h
  | some pr =>
    by_cases hn : pr.n_versions_part = 1
    · exact ⟨pr, rfl, hn⟩
    · simp [matchedUdiPart, hn] at h

/-- C5: a record joined to a full (resp. partial) composite key with more
than one candidate — count 2, or any count above 1 — is never assigned
`mfr_full_single` (resp. `mfr_partial_single`); conversely, the single-match
sources arise only when the joined count is exactly 1. -/
theorem c5_ambiguity_non_guessing (m : Option MappingRow) (f : Option FullRow)
    (p : Option PartRow) :
    (∀ fr, f = some fr → 1 < fr.n_versions_full →
      matchSource m f p ≠ "mfr_full_single") ∧
    (∀ pr, p = some pr → 1 < pr.n_versions_part →
      matchSource m f p ≠ "mfr_partial_single") ∧
    (matchSource m f p = "mfr_full_single" →
      ∃ fr, f = some fr ∧ fr.n_versions_full = 1) ∧
    (matchSource m f p = "mfr_partial_single" →
      ∃ pr, p = some pr ∧ pr.n_versions_part = 1) := by
  refine ⟨?_, ?_, ?_, ?_⟩
  · intro fr hf hn
    have hne : fr.n_versions_full ≠ 1 := by omega
    have hmf : matchedUdiFull f = none := by
      subst hf; simp [matchedUdiFull, hne]
    unfold matchSource
    rw [hmf]
    split_ifs <;> simp_all
  · intro pr hp hn
    have hne : pr.n_versions_part ≠ 1 := by omega
    have hmp : matchedUdiPart p = none := by
      subst hp; simp [matchedUdiPart, hne]
    unfold matchSource
    rw [hmp]
    split_ifs <;> simp_all
  · intro h
    unfold matchSource at h
    split_ifs at h <;>
      first
        | exact matchedUdiFull_isSome ‹Option.isSome (matchedUdiFull f) = true›
        | simp at h
  · intro h
    unfold matchSource at h
    split_ifs at h <;>
      first
        | exact matchedUdiPart_isSome ‹Option.isSome (matchedUdiPart p) = true›
        | simp at h

/-- Witness for C5 at an ambiguous full key and an ambiguous partial key of
count 2. -/
theorem c5_ambiguity_non_guessing_witness :
    1 < fullRow2.n_versions_full ∧ 1 < partRow2.n_versions_part ∧
    matchSource none (some fullRow2) (some partRow2) ≠ "mfr_full_single" ∧
    matchSource none (some fullRow2) (some partRow2) ≠ "mfr_partial_single" :=
  ⟨by decide, by decide,
    (c5_ambiguity_non_guessing none (some fullRow2) (some partRow2)).1
      fullRow2 rfl (by decide),
    (c5_ambiguity_non_guessing none (some fullRow2) (some partRow2)).2.1
      partRow2 rfl (by decide)⟩

/-- C1: the terminal non-null invariant fails.  On an event record with a
null identifier, manufacturer, brand and catalog (hence `match_source =
no_match`, in the rewrite set), the fallback pass synthesizes the Tier-3
identifier through the null-propagating `concat_str`, so the final
`device_version_id` is null; the confidence grade is still assigned. -/
theorem c1_terminal_invariant_violated :
    (pipelineRun noExtract simZero 90 keepFirst false 1 (1/2 : ℚ)
        [rowNullEvent] []).map
      (fun r => (r.device_version_id, r.match_source, r.udi_confidence))
      = [(none, "no_match", "VERY_LOW")] := by decide

/-- C2 counterexample: an event citing raw identifier `X` that fails the
identifier lookup, whose full composite key (`M`, `B`, `C`) is singular with
candidate `U1`, gets `match_source = mfr_full_single` but keeps `X` as
`device_version_id` — the single candidate's identifier is not adopted. -/
theorem c2_counterexample :
    ((pipelineRun noExtract simZero 90 keepFirst false 1 (1/2 : ℚ)
        [rowEventX] [regU1]).map
        (fun r => (r.match_source, r.device_version_id))
        = [("mfr_full_single", some "X")]) ∧
    ((buildFull [regU1]).map
        (fun fr => (fr.n_versions_full, fr.udi_list_full.head?.join))
        = [(1, some "U1")]) ∧
    some "X" ≠ some "U1" := by
  refine ⟨by decide, by decide, by decide⟩

/-- C3 counterexample: the secondary identifier `S` reaches exactly one
distinct primary (`P`) across the entire registry, but its two registry rows
fall in different chunks (chunk size 1), so the summed per-chunk distinct
counts give `n_primary = 2` and the mapping entry is `udi_no_match`, not
`udi_secondary` — the "if" direction of the claimed equivalence fails. -/
theorem c3_counterexample :
    ((buildUdiMapping true 1 (buildUdiDiLookup keepFirst [regP1, regP2])
        [regP1, regP2] [normRowS]).map
        (fun mr => (mr.udi_combined, mr.udi_match_type))
        = [(some "S", some "udi_no_match")]) ∧
    reachableDistinct [regP1, regP2] "S" = 1 ∧
    "S" ∈ failedUdis (buildUdiDiLookup keepFirst [regP1, regP2]) [normRowS] := by
  refine ⟨by decide, by decide, by decide⟩

/-- C4 counterexample: a registry with two duplicate rows for the same
primary identifier `U1` under one full composite key stores
`n_versions_full = 2` (`len()` counts rows) although only one distinct
primary identifier is aggregated under the key. -/
theorem c4_counterexample :
    ((buildFull [regU1, regU1]).map
        (fun fr => ((fr.manufacturer, fr.brand, fr.catalog_number),
          fr.n_versions_full))
        = [((some "M", some "B", some "C"), 2)]) ∧
    distinctPrimariesFull [regU1, regU1] (some "M", some "B", some "C") = 1 := by
  refine ⟨by decide, by decide⟩

/-- C7 counterexample: on a registry with a primary-key collision on `U1`
(models `M1` vs `M2`), two admissible dedup selections — polars
`unique(keep='any')` guarantees neither — give runs whose outputs differ in
content (`model_number_final`), not merely in row order. -/
theorem c7_counterexample :
    ((pipelineRun noExtract simZero 90 keepFirst false 5 (1/2 : ℚ)
        [rowEventU1] [regU1, regU1v2]).map (·.model_number_final)
        = [some "M1"]) ∧
    ((pipelineRun noExtract simZero 90 keepLast false 5 (1/2 : ℚ)
        [rowEventU1] [regU1, regU1v2]).map (·.model_number_final)
        = [some "M2"]) := by
  refine ⟨by decide, by decide⟩

theorem splitChunksAux_flatten (fuel : Nat) :
    ∀ (n : Nat) (l : List α), l.length < fuel → 0 < n →
      (splitChunksAux fuel n l).flatten = l := by
  induction fuel with
  | zero => intro n l h _; omega
  | succ fuel ih =>
    intro n l hl hn
    cases l with
    | nil => rfl
    | cons a t =>
      have hstep : splitChunksAux (fuel + 1) n (a :: t)
          = (a :: t).take n :: splitChunksAux fuel n ((a :: t).drop n) := rfl
      rw [hstep]
      have hlen : ((a :: t).drop n).length < fuel := by
        simp only [List.length_drop, List.length_cons]
        simp only [List.length_cons] at hl
        omega
      rw [List.flatten_cons, ih n _ hlen hn, List.take_append_drop]

theorem splitChunks_flatten (n : Nat) (l : List α) :
    (splitChunks n l).flatten = l := by
  unfold splitChunks
  split
  · simp
  · exact splitChunksAux_flatten _ n l (by omega) (by omega)

theorem listBind_map_flatten (cs : List (List α)) (f : α → β) :
    listBind cs (fun c => c.map f) = cs.flatten.map f := by
  induction cs with
  | nil => rfl
  | cons c cs ih => rw [listBind_cons, ih, List.flatten_cons, List.map_append]

theorem postProcess_eq_map (θ : ℚ) (n : Nat) (rows : List ResolvedRow) :
    postProcess θ n rows
      = rows.map (resolveChunkRow (lowComplianceMfrs θ rows)) := by
  unfold postProcess
  rw [listBind_map_flatten, splitChunks_flatten]

theorem mem_mfrKeys {rows : List ResolvedRow} {r : ResolvedRow} (hr : r ∈ rows) :
    r.orig.mfr_std ∈ mfrKeys rows := by
  unfold mfrKeys
  rw [List.mem_dedup]
  exact List.mem_map_of_mem _ hr

theorem mem_lowComplianceMfrs {θ : ℚ} {rows : List ResolvedRow} {k : Cell} :
    k ∈ lowComplianceMfrs θ rows ↔
      k ∈ mfrKeys rows ∧ θ < missingRate rows k := by
  unfold lowComplianceMfrs
  rw [List.mem_filter, decide_eq_true_eq]

/-- C8: for records in the rewrite set (`mfr_full_multiple`,
`mfr_partial_multiple`, `no_match`) the fallback keeps a non-null raw
identifier as `device_version_id`; otherwise it synthesizes
`LOW_<mfr>_<brand>` when the manufacturer is low-compliance and
`UNK_<mfr>_<brand>_<catalog>` when not, where a manufacturer is
low-compliance iff its fraction of null-identifier records strictly exceeds
the threshold. -/
theorem c8_fallback_synthesis (θ : ℚ) (n : Nat) (rows : List ResolvedRow)
    (r : ResolvedRow) (hr : r ∈ rows) (hs : r.match_source ∈ rewriteSet) :
    resolveChunkRow (lowComplianceMfrs θ rows) r ∈ postProcess θ n rows ∧
    (isInCell r.orig.mfr_std (lowComplianceMfrs θ rows) = some true ↔
      ∃ v, r.orig.mfr_std = some v ∧ θ < missingRate rows (some v)) ∧
    (∀ u, r.orig.udi_combined = some u →
      (resolveChunkRow (lowComplianceMfrs θ rows) r).device_version_id = some u) ∧
    (r.orig.udi_combined = none →
      isInCell r.orig.mfr_std (lowComplianceMfrs θ rows) = some true →
      (resolveChunkRow (lowComplianceMfrs θ rows) r).device_version_id
        = concatStr [some "LOW_", r.orig.mfr_std, some "_", r.brand_final]) ∧
    (r.orig.udi_combined = none →
      ¬ isInCell r.orig.mfr_std (lowComplianceMfrs θ rows) = some true →
      (resolveChunkRow (lowComplianceMfrs θ rows) r).device_version_id
        = concatStr [some "UNK_", r.orig.mfr_std, some "_", r.brand_final,
            some "_", r.catalog_number_final]) := by
  refine ⟨?_, ?_, ?_, ?_, ?_⟩
  · rw [postProcess_eq_map]
    exact List.mem_map_of_mem _ hr
  · rcases hm : r.orig.mfr_std with _ | v
    · simp [isInCell]
    · simp only [isInCell, Option.map_some', Option.some.injEq,
        decide_eq_true_eq]
      constructor
      · intro hmem
        exact ⟨v, rfl, (mem_lowComplianceMfrs.mp hmem).2⟩
      · rintro ⟨v', hv', hrate⟩
        obtain rfl := hv'
        exact mem_lowComplianceMfrs.mpr ⟨hm ▸ mem_mfrKeys hr, hrate⟩
  · intro u hu
    simp [resolveChunkRow, if_pos hs, tier3Id, hu]
  · intro hu hin
    simp [resolveChunkRow, if_pos hs, tier3Id, hu, hin]
  · intro hu hin
    simp [resolveChunkRow, if_pos hs, tier3Id, hu, hin]

/-- Witness for C8 at a concrete unmatched record whose manufacturer `A` has
missing rate 1 > 1/2 (low-compliance). -/
theorem c8_fallback_synthesis_witness :
    resRowNoMatch ∈ [resRowNoMatch] ∧ resRowNoMatch.match_source ∈ rewriteSet ∧
    (resolveChunkRow (lowComplianceMfrs (1/2 : ℚ) [resRowNoMatch]) resRowNoMatch
        ∈ postProcess (1/2 : ℚ) 1 [resRowNoMatch] ∧
      (isInCell resRowNoMatch.orig.mfr_std
          (lowComplianceMfrs (1/2 : ℚ) [resRowNoMatch]) = some true ↔
        ∃ v, resRowNoMatch.orig.mfr_std = some v ∧
          (1/2 : ℚ) < missingRate [resRowNoMatch] (some v)) ∧
      (∀ u, resRowNoMatch.orig.udi_combined = some u →
        (resolveChunkRow (lowComplianceMfrs (1/2 : ℚ) [resRowNoMatch])
            resRowNoMatch).device_version_id = some u) ∧
      (resRowNoMatch.orig.udi_combined = none →
        isInCell resRowNoMatch.orig.mfr_std
            (lowComplianceMfrs (1/2 : ℚ) [resRowNoMatch]) = some true →
        (resolveChunkRow (lowComplianceMfrs (1/2 : ℚ) [resRowNoMatch])
            resRowNoMatch).device_version_id
          = concatStr [some "LOW_", resRowNoMatch.orig.mfr_std, some "_",
              resRowNoMatch.brand_final]) ∧
      (resRowNoMatch.orig.udi_combined = none →
        ¬ isInCell resRowNoMatch.orig.mfr_std
            (lowComplianceMfrs (1/2 : ℚ) [resRowNoMatch]) = some true →
        (resolveChunkRow (lowComplianceMfrs (1/2 : ℚ) [resRowNoMatch])
            resRowNoMatch).device_version_id
          = concatStr [some "UNK_", resRowNoMatch.orig.mfr_std, some "_",
              resRowNoMatch.brand_final, some "_",
              resRowNoMatch.catalog_number_final])) :=
  ⟨by decide, by decide,
    c8_fallback_synthesis (1/2 : ℚ) 1 [resRowNoMatch] resRowNoMatch
      (by decide) (by decide)⟩

theorem length_le_one_of_nodup_all_eq {l : List κ} (hnd : l.Nodup) (c : κ)
    (h : ∀ x ∈ l, x = c) : l.length ≤ 1 := by
  cases l with
  | nil => simp
  | cons a t =>
    cases t with
    | nil => simp
    | cons b t₂ =>
      exfalso
      have hab : a = b := (h a (by simp)).trans (h b (by simp)).symm
      rw [List.nodup_cons] at hnd
      exact hnd.1 (hab ▸ List.mem_cons_self b t₂)

theorem length_filter_le_one_of_keyed (key : α → κ) (c : κ) {tbl : List α}
    {p : α → Bool} (hnd : (tbl.map key).Nodup)
    (hp : ∀ x, p x = true → key x = c) : (tbl.filter p).length ≤ 1 := by
  have hsub : List.Sublist ((tbl.filter p).map key) (tbl.map key) :=
    (List.filter_sublist tbl).map key
  have hnd₂ : ((tbl.filter p).map key).Nodup := hnd.sublist hsub
  have hall : ∀ y ∈ (tbl.filter p).map key, y = c := by
    rintro y hy
    rw [List.mem_map] at hy
    obtain ⟨x, hx, rfl⟩ := hy
    exact hp x (List.of_mem_filter hx)
  have := length_le_one_of_nodup_all_eq hnd₂ c hall
  simpa using this

theorem eq_singleton_of_length_le_one_of_mem {l : List α} {r : α}
    (hle : l.length ≤ 1) (hr : r ∈ l) : l = [r] := by
  have hpos : 0 < l.length := List.length_pos.mpr (List.ne_nil_of_mem hr)
  obtain ⟨a, ha⟩ := List.length_eq_one.mp (Nat.le_antisymm hle hpos)
  subst ha
  rw [List.mem_singleton] at hr
  rw [hr]

/-- C4 amended: the stored composite-index counts are group row counts; they
equal the number of distinct primary identifiers under the key — and a key is
singular iff exactly one distinct identity is registered under it — whenever
the registry has no duplicate primary identifiers. -/
theorem c4_composite_count_semantics (udi : List UdiRow)
    (hnd : (udi.map (·.udi_di)).Nodup) :
    (∀ fr ∈ buildFull udi,
      fr.n_versions_full
          = distinctPrimariesFull udi (fr.manufacturer, fr.brand, fr.catalog_number) ∧
      (fr.n_versions_full = 1 ↔
        distinctPrimariesFull udi (fr.manufacturer, fr.brand, fr.catalog_number) = 1)) ∧
    (∀ pr ∈ buildPart udi,
      pr.n_versions_part
          = distinctPrimariesPart udi (pr.manufacturer, pr.brand) ∧
      (pr.n_versions_part = 1 ↔
        distinctPrimariesPart udi (pr.manufacturer, pr.brand) = 1)) := by
  have core : ∀ g : List UdiRow, List.Sublist g udi →
      ((g.map (·.udi_di)).dedup).length = g.length := by
    intro g hg
    have hnd₂ : (g.map (·.udi_di)).Nodup := hnd.sublist (hg.map _)
    rw [List.dedup_eq_self.mpr hnd₂, List.length_map]
  constructor
  · intro fr hfr
    rw [buildFull, List.mem_map] at hfr
    obtain ⟨k, hk, rfl⟩ := hfr
    have hkey : ((k.1, k.2.1, k.2.2) : Cell × Cell × Cell) = k := rfl
    have heq :
        distinctPrimariesFull udi (k.1, k.2.1, k.2.2) = (fullGroup udi k).length := by
      unfold distinctPrimariesFull
      rw [hkey]
      exact core _ (List.filter_sublist udi)
    refine ⟨heq.symm, by rw [heq]⟩
  · intro pr hpr
    rw [buildPart, List.mem_map] at hpr
    obtain ⟨k, hk, rfl⟩ := hpr
    have hkey : ((k.1, k.2) : Cell × Cell) = k := rfl
    have heq :
        distinctPrimariesPart udi (k.1, k.2) = (partGroup udi k).length := by
      unfold distinctPrimariesPart
      rw [hkey]
      exact core _ (List.filter_sublist udi)
    refine ⟨heq.symm, by rw [heq]⟩

/-- Witness for C4 on a duplicate-free registry. -/
theorem c4_composite_count_semantics_witness :
    ([regU1].map (·.udi_di)).Nodup ∧
    ((∀ fr ∈ buildFull [regU1],
      fr.n_versions_full
          = distinctPrimariesFull [regU1] (fr.manufacturer, fr.brand, fr.catalog_number) ∧
      (fr.n_versions_full = 1 ↔
        distinctPrimariesFull [regU1] (fr.manufacturer, fr.brand, fr.catalog_number) = 1)) ∧
    (∀ pr ∈ buildPart [regU1],
      pr.n_versions_part
          = distinctPrimariesPart [regU1] (pr.manufacturer, pr.brand) ∧
      (pr.n_versions_part = 1 ↔
        distinctPrimariesPart [regU1] (pr.manufacturer, pr.brand) = 1))) :=
  ⟨by decide, c4_composite_count_semantics [regU1] (by decide)⟩

theorem admissible_keepFirst : AdmissibleKeep keepFirst := by
  intro g hg
  cases g with
  | nil => exact absurd rfl hg
  | cons a t => exact ⟨a, List.mem_cons_self a t, rfl⟩

theorem admissible_keepLast : AdmissibleKeep keepLast := by
  intro g hg
  exact ⟨g.getLast hg, List.getLast_mem hg, List.getLast?_eq_getLast g hg⟩

theorem filterMap_congr_mem {f g : α → Option β} :
    ∀ l : List α, (∀ a ∈ l, f a = g a) → l.filterMap f = l.filterMap g := by
  intro l
  induction l with
  | nil => intro _; rfl
  | cons a t ih =>
    intro h
    rw [List.filterMap_cons, List.filterMap_cons, h a (by simp),
      ih (fun x hx => h x (by simp [hx]))]

theorem primaryGroup_eq_singleton {udi : List UdiRow}
    (hnd : (udi.map (·.udi_di)).Nodup) {k : Cell} {r : UdiRow} (hr : r ∈ udi)
    (hk : r.udi_di = k) : primaryGroup udi k = [r] := by
  have hmem : r ∈ primaryGroup udi k := by
    unfold primaryGroup
    exact List.mem_filter.mpr ⟨hr, by simp [hk]⟩
  have hle : (primaryGroup udi k).length ≤ 1 := by
    unfold primaryGroup
    exact length_filter_le_one_of_keyed (·.udi_di) k hnd
      (fun x hx => by simpa using hx)
  exact eq_singleton_of_length_le_one_of_mem hle hmem

theorem buildUdiDiLookup_eq_of_nodup {udi : List UdiRow}
    (hnd : (udi.map (·.udi_di)).Nodup) {k₁ k₂ : List UdiRow → Option UdiRow}
    (h₁ : AdmissibleKeep k₁) (h₂ : AdmissibleKeep k₂) :
    buildUdiDiLookup k₁ udi = buildUdiDiLookup k₂ udi := by
  unfold buildUdiDiLookup
  apply filterMap_congr_mem
  intro k hk
  rw [primaryKeys, List.mem_dedup, List.mem_map] at hk
  obtain ⟨r, hr, hkk⟩ := hk
  rw [primaryGroup_eq_singleton hnd hr hkk]
  obtain ⟨x₁, hx₁, e₁⟩ := h₁ [r] (by simp)
  obtain ⟨x₂, hx₂, e₂⟩ := h₂ [r] (by simp)
  rw [List.mem_singleton] at hx₁ hx₂
  rw [e₁, e₂, hx₁, hx₂]

/-- C7 amended: the pipeline is deterministic given the same resolution of
the registry primary-key dedup; in particular, when the registry has no
primary-key collision, any two admissible dedup selections (hence any two
runs) produce identical output.  With a collision, two admissible runs can
differ (see the counterexample); the spec-modelled fuzzy matching is a
function of its inputs and introduces no further nondeterminism. -/
theorem c7_determinism (extractDi : Cell → Cell) (sim : String → String → Nat)
    (fuzzyThreshold : Nat) (k₁ k₂ : List UdiRow → Option UdiRow) (secCols : Bool)
    (chunkSize : Nat) (threshold : ℚ) (maude : List MaudeRow) (udi : List UdiRow)
    (hnd : (udi.map (·.udi_di)).Nodup)
    (h₁ : AdmissibleKeep k₁) (h₂ : AdmissibleKeep k₂) :
    pipelineRun extractDi sim fuzzyThreshold k₁ secCols chunkSize threshold maude udi
      = pipelineRun extractDi sim fuzzyThreshold k₂ secCols chunkSize threshold maude udi := by
  simp only [pipelineRun]
  rw [buildUdiDiLookup_eq_of_nodup hnd h₁ h₂]

/-- Witness for C7 on a collision-free registry: the first-row and last-row
dedup selections give identical pipeline output. -/
theorem c7_determinism_witness :
    ([regU1].map (·.udi_di)).Nodup ∧
    pipelineRun noExtract simZero 90 keepFirst false 1 (1/2 : ℚ)
        [rowEventU1] [regU1]
      = pipelineRun noExtract simZero 90 keepLast false 1 (1/2 : ℚ)
        [rowEventU1] [regU1] :=
  ⟨by decide,
    c7_determinism noExtract simZero 90 keepFirst keepLast false 1 (1/2 : ℚ)
      [rowEventU1] [regU1] (by decide) admissible_keepFirst admissible_keepLast⟩

theorem mapping_entry_shape (secCols : Bool) (n : Nat) (lookup udi : List UdiRow)
    (maude : List NormRow) {mr : MappingRow}
    (hm : mr ∈ buildUdiMapping secCols n lookup udi maude) :
    (mr.udi_match_type = some "udi_direct" ∨
      mr.udi_match_type = some "udi_secondary" ∨
      mr.udi_match_type = some "udi_no_match") ∧
    (mr.udi_match_type = some "udi_no_match" →
      mr.mapped_primary_udi = mr.udi_combined ∧ mr.mapped_model_number = none) ∧
    (mr.udi_match_type = some "udi_direct" →
      mr.mapped_primary_udi = mr.udi_combined) := by
  simp only [buildUdiMapping] at hm
  split at hm
  · simp only [List.mem_append, List.mem_map] at hm
    rcases hm with (⟨e, he, rfl⟩ | ⟨e, he, rfl⟩) | ⟨e, he, rfl⟩
    · exact ⟨Or.inl rfl, by simp, by simp⟩
    · exact ⟨Or.inr (Or.inl rfl), by simp, by simp⟩
    · exact ⟨Or.inr (Or.inr rfl), by simp, by simp⟩
  · simp only [List.mem_append, List.mem_map] at hm
    rcases hm with ⟨e, he, rfl⟩ | ⟨e, he, rfl⟩
    · exact ⟨Or.inl rfl, by simp, by simp⟩
    · exact ⟨Or.inr (Or.inr rfl), by simp, by simp⟩

theorem mappingFor_eq_some {mapping : List MappingRow} {r : NormRow}
    {mr : MappingRow} (h : mappingFor mapping r = some mr) :
    mr ∈ mapping ∧ mapMatch r mr = true := by
  unfold mappingFor at h
  have hmem := head?_some_mem h
  exact ⟨List.mem_of_mem_filter hmem, List.of_mem_filter hmem⟩

theorem mappingFor_none_of_null {mapping : List MappingRow} {r : NormRow}
    (h : r.udi_combined = none) : mappingFor mapping r = none := by
  unfold mappingFor
  have hnil : mapping.filter (mapMatch r) = [] := by
    rw [List.filter_eq_nil_iff]
    intro a _
    simp [mapMatch, h, cellEq_none]
  rw [hnil]
  rfl

/-- C2 amended: when the identifier lookup yielded neither `udi_direct` nor
`udi_secondary` and the full composite key is singular with candidate `c`,
the record gets `match_source = mfr_full_single` and adopts the candidate's
model; `device_version_id` becomes the candidate `c` when the record has no
identifier-mapping entry (in particular when its raw identifier is null),
but a record whose non-null raw identifier failed the lookup with a mapping
entry (`udi_no_match`) keeps that raw identifier as `device_version_id`
instead of adopting the candidate. -/
theorem c2_tier2_adoption (secCols : Bool) (n : Nat) (lookup udi : List UdiRow)
    (maude : List NormRow) (r : NormRow) (fr : FullRow) (c : String)
    (hd : udiMatchType (mappingFor (buildUdiMapping secCols n lookup udi maude) r)
      ≠ some "udi_direct")
    (hs : udiMatchType (mappingFor (buildUdiMapping secCols n lookup udi maude) r)
      ≠ some "udi_secondary")
    (hf : fullFor (buildFull udi) r = some fr)
    (h1 : fr.n_versions_full = 1)
    (hc : fr.udi_list_full.head?.join = some c) :
    (resolveRow (mappingFor (buildUdiMapping secCols n lookup udi maude) r)
        (fullFor (buildFull udi) r) (partFor (buildPart udi) r) r).match_source
      = "mfr_full_single" ∧
    (resolveRow (mappingFor (buildUdiMapping secCols n lookup udi maude) r)
        (fullFor (buildFull udi) r) (partFor (buildPart udi) r) r).model_number_final
      = coalesce [fr.model_list_full.head?.join,
          matchedModelPart (partFor (buildPart udi) r)] ∧
    (r.udi_combined = none →
      (resolveRow (mappingFor (buildUdiMapping secCols n lookup udi maude) r)
          (fullFor (buildFull udi) r) (partFor (buildPart udi) r) r).device_version_id
        = some c) ∧
    (∀ u, r.udi_combined = some u →
      mappingFor (buildUdiMapping secCols n lookup udi maude) r ≠ none →
      (resolveRow (mappingFor (buildUdiMapping secCols n lookup udi maude) r)
          (fullFor (buildFull udi) r) (partFor (buildPart udi) r) r).device_version_id
        = some u) ∧
    (mappingFor (buildUdiMapping secCols n lookup udi maude) r = none →
      (resolveRow (mappingFor (buildUdiMapping secCols n lookup udi maude) r)
          (fullFor (buildFull udi) r) (partFor (buildPart udi) r) r).device_version_id
        = some c) := by
  have hmf : matchedUdiFull (fullFor (buildFull udi) r) = some c := by
    rw [hf]
    show (if fr.n_versions_full = 1 then fr.udi_list_full.head?.join else none)
      = some c
    rw [if_pos h1, hc]
  have hfacts :
      (mappingFor (buildUdiMapping secCols n lookup udi maude) r).bind
          (·.mapped_model_number) = none ∧
      ∀ mr, mappingFor (buildUdiMapping secCols n lookup udi maude) r = some mr →
        mr.mapped_primary_udi = r.udi_combined := by
    cases hmt : mappingFor (buildUdiMapping secCols n lookup udi maude) r with
    | none =>
      refine ⟨rfl, ?_⟩
      intro mr h'
      cases h'
    | some mr =>
      obtain ⟨hmem, hmatch⟩ := mappingFor_eq_some hmt
      obtain ⟨shape1, shape2, _⟩ :=
        mapping_entry_shape secCols n lookup udi maude hmem
      rw [hmt] at hd hs
      simp only [udiMatchType, Option.some_bind] at hd hs
      have htype : mr.udi_match_type = some "udi_no_match" := by
        rcases shape1 with h' | h' | h'
        · exact absurd h' hd
        · exact absurd h' hs
        · exact h'
      obtain ⟨hprim, hmodel⟩ := shape2 htype
      obtain ⟨v, hv, hv'⟩ := cellEq_iff.mp (by simpa [mapMatch] using hmatch)
      refine ⟨by simp [hmodel], ?_⟩
      intro mr' h'
      injection h' with h''
      rw [← h'', hprim, hv', hv]
  refine ⟨?_, ?_, ?_, ?_, ?_⟩
  · show matchSource _ _ _ = _
    unfold matchSource
    rw [if_neg hd, if_neg hs, hmf]
    simp
  · show coalesce _ = _
    rw [hfacts.1]
    show coalesce [matchedModelFull (fullFor (buildFull udi) r),
      matchedModelPart (partFor (buildPart udi) r)] = _
    rw [hf]
    simp [matchedModelFull, h1]
  · intro hnull
    have hm0 : mappingFor (buildUdiMapping secCols n lookup udi maude) r = none :=
      mappingFor_none_of_null hnull
    show coalesce _ = _
    rw [hm0]
    show coalesce [none, matchedUdiFull (fullFor (buildFull udi) r),
      matchedUdiPart (partFor (buildPart udi) r), r.udi_combined] = _
    rw [hmf]
    rfl
  · intro u hu hne
    cases hmt : mappingFor (buildUdiMapping secCols n lookup udi maude) r with
    | none => exact absurd hmt hne
    | some mr =>
      have hp := hfacts.2 mr hmt
      show coalesce [(some mr).bind (·.mapped_primary_udi),
        matchedUdiFull (fullFor (buildFull udi) r),
        matchedUdiPart (partFor (buildPart udi) r), r.udi_combined] = _
      rw [Option.some_bind, hp, hu]
      rfl
  · intro hm0
    show coalesce _ = _
    rw [hm0]
    show coalesce [none, matchedUdiFull (fullFor (buildFull udi) r),
      matchedUdiPart (partFor (buildPart udi) r), r.udi_combined] = _
    rw [hmf]
    rfl

/-- Witness for C2 amended: event `X` (raw identifier failing the lookup,
entry `udi_no_match`) against the one-row registry `[regU1]` whose full key
is singular with candidate `U1`. -/
theorem c2_tier2_adoption_witness :
    udiMatchType (mappingFor
        (buildUdiMapping false 1 (buildUdiDiLookup keepFirst [regU1]) [regU1]
          [normRowX]) normRowX) = some "udi_no_match" ∧
    fullFor (buildFull [regU1]) normRowX = some fullRowU1 ∧
    fullRowU1.n_versions_full = 1 ∧
    fullRowU1.udi_list_full.head?.join = some "U1" ∧
    ((resolveRow (mappingFor (buildUdiMapping false 1
          (buildUdiDiLookup keepFirst [regU1]) [regU1] [normRowX]) normRowX)
        (fullFor (buildFull [regU1]) normRowX)
        (partFor (buildPart [regU1]) normRowX) normRowX).match_source
      = "mfr_full_single" ∧
    (resolveRow (mappingFor (buildUdiMapping false 1
          (buildUdiDiLookup keepFirst [regU1]) [regU1] [normRowX]) normRowX)
        (fullFor (buildFull [regU1]) normRowX)
        (partFor (buildPart [regU1]) normRowX) normRowX).model_number_final
      = coalesce [fullRowU1.model_list_full.head?.join,
          matchedModelPart (partFor (buildPart [regU1]) normRowX)] ∧
    (normRowX.udi_combined = none →
      (resolveRow (mappingFor (buildUdiMapping false 1
            (buildUdiDiLookup keepFirst [regU1]) [regU1] [normRowX]) normRowX)
          (fullFor (buildFull [regU1]) normRowX)
          (partFor (buildPart [regU1]) normRowX) normRowX).device_version_id
        = some "U1") ∧
    (∀ u, normRowX.udi_combined = some u →
      mappingFor (buildUdiMapping false 1
          (buildUdiDiLookup keepFirst [regU1]) [regU1] [normRowX]) normRowX ≠ none →
      (resolveRow (mappingFor (buildUdiMapping false 1
            (buildUdiDiLookup keepFirst [regU1]) [regU1] [normRowX]) normRowX)
          (fullFor (buildFull [regU1]) normRowX)
          (partFor (buildPart [regU1]) normRowX) normRowX).device_version_id
        = some u) ∧
    (mappingFor (buildUdiMapping false 1
        (buildUdiDiLookup keepFirst [regU1]) [regU1] [normRowX]) normRowX = none →
      (resolveRow (mappingFor (buildUdiMapping false 1
            (buildUdiDiLookup keepFirst [regU1]) [regU1] [normRowX]) normRowX)
          (fullFor (buildFull [regU1]) normRowX)
          (partFor (buildPart [regU1]) normRowX) normRowX).device_version_id
        = some "U1")) :=
  ⟨by decide, by decide, by decide, by decide,
    c2_tier2_adoption false 1 (buildUdiDiLookup keepFirst [regU1]) [regU1]
      [normRowX] normRowX fullRowU1 "U1" (by decide) (by decide) (by decide)
      (by decide) (by decide)⟩

theorem leftMatches_single {p : α → Bool} {tbl : List α}
    (h : (tbl.filter p).length ≤ 1) :
    leftMatches p tbl = [(tbl.filter p).head?] := by
  unfold leftMatches
  cases hf : tbl.filter p with
  | nil => rfl
  | cons a t =>
    cases t with
    | nil => rfl
    | cons b t₂ =>
      rw [hf] at h
      simp only [List.length_cons] at h
      omega

theorem buildFull_keys (udi : List UdiRow) :
    (buildFull udi).map (fun fr => (fr.manufacturer, fr.brand, fr.catalog_number))
      = fullKeys udi := by
  unfold buildFull
  rw [List.map_map]
  exact List.map_id _

theorem buildPart_keys (udi : List UdiRow) :
    (buildPart udi).map (fun pr => (pr.manufacturer, pr.brand)) = partKeys udi := by
  unfold buildPart
  rw [List.map_map]
  exact List.map_id _

theorem uniqueUdis_nodup (maude : List NormRow) : (uniqueUdis maude).Nodup := by
  unfold uniqueUdis
  refine List.Nodup.filterMap ?_ (List.nodup_dedup _)
  intro a a' b hb hb'
  rw [Option.mem_def] at hb hb'
  have hb₂ : a = some b := hb
  have hb₂' : a' = some b := hb'
  rw [hb₂, hb₂']

theorem primaryJoined_keys (lookup : List UdiRow) (maude : List NormRow) :
    (primaryJoined lookup maude).map (·.1) = uniqueUdis maude := by
  unfold primaryJoined
  rw [List.map_map]
  exact List.map_id _

theorem disjoint_map_some {l₁ l₂ : List String} (h : l₁.Disjoint l₂) :
    (l₁.map (some : String → Cell)).Disjoint (l₂.map some) := by
  intro x hx₁ hx₂
  rw [List.mem_map] at hx₁ hx₂
  obtain ⟨u, hu, rfl⟩ := hx₁
  obtain ⟨v, hv, he⟩ := hx₂
  injection he with he'
  exact h hu (he' ▸ hv)

theorem disjoint_filters {U : List String} {a b : String → Bool}
    (hab : ∀ u, a u = true → b u = true → False) :
    (U.filter a).Disjoint (U.filter b) := by
  intro u hu₁ hu₂
  exact hab u (List.of_mem_filter hu₁) (List.of_mem_filter hu₂)

theorem nodup_two_filters {U : List String} (hU : U.Nodup) (a b : String → Bool)
    (hab : ∀ u, a u = true → b u = true → False) :
    ((U.filter a).map (some : String → Cell) ++ (U.filter b).map some).Nodup := by
  refine List.Nodup.append ?_ ?_ (disjoint_map_some (disjoint_filters hab))
  · exact (hU.filter a).map (Option.some_injective String)
  · exact (hU.filter b).map (Option.some_injective String)

theorem nodup_three_filters {U : List String} (hU : U.Nodup)
    (a b c₁ c₂ : String → Bool)
    (hab : ∀ u, a u = true → b u = true → False)
    (hcc : ∀ u, c₁ u = true → c₂ u = true → False) :
    (((U.filter a).map (some : String → Cell)
        ++ ((U.filter b).filter c₁).map some)
      ++ ((U.filter b).filter c₂).map some).Nodup := by
  have hsub₁ : ∀ u, u ∈ (U.filter b).filter c₁ → b u = true := fun u hu =>
    List.of_mem_filter (List.mem_of_mem_filter hu)
  have hsub₂ : ∀ u, u ∈ (U.filter b).filter c₂ → b u = true := fun u hu =>
    List.of_mem_filter (List.mem_of_mem_filter hu)
  have hA : ((U.filter a).map (some : String → Cell)).Nodup :=
    (hU.filter a).map (Option.some_injective String)
  have hB : (((U.filter b).filter c₁).map (some : String → Cell)).Nodup :=
    ((hU.filter b).filter c₁).map (Option.some_injective String)
  have hC : (((U.filter b).filter c₂).map (some : String → Cell)).Nodup :=
    ((hU.filter b).filter c₂).map (Option.some_injective String)
  have hAB : ((U.filter a).map (some : String → Cell)).Disjoint
      (((U.filter b).filter c₁).map some) := by
    refine disjoint_map_some ?_
    intro u hu₁ hu₂
    exact hab u (List.of_mem_filter hu₁) (hsub₁ u hu₂)
  have hAC : ((U.filter a).map (some : String → Cell)).Disjoint
      (((U.filter b).filter c₂).map some) := by
    refine disjoint_map_some ?_
    intro u hu₁ hu₂
    exact hab u (List.of_mem_filter hu₁) (hsub₂ u hu₂)
  have hBC : (((U.filter b).filter c₁).map (some : String → Cell)).Disjoint
      (((U.filter b).filter c₂).map some) := by
    refine disjoint_map_some ?_
    intro u hu₁ hu₂
    exact hcc u (List.of_mem_filter hu₁) (List.of_mem_filter hu₂)
  refine List.Nodup.append (List.Nodup.append hA hB hAB) hC ?_
  rw [List.disjoint_append_left]
  exact ⟨hAC, hBC⟩

theorem buildUdiMapping_keys_nodup (secCols : Bool) (n : Nat)
    (lookup udi : List UdiRow) (maude : List NormRow) :
    ((buildUdiMapping secCols n lookup udi maude).map (·.udi_combined)).Nodup := by
  have hU : (uniqueUdis maude).Nodup := uniqueUdis_nodup maude
  simp only [buildUdiMapping, primarySuccess, primaryFailed, primaryJoined]
  split
  · simp only [List.map_append, List.map_map, List.filter_map, List.map_map]
    exact nodup_three_filters hU _ _ _ _
      (fun u h₁ h₂ => by
        simp only [Function.comp] at h₁ h₂
        rw [h₁] at h₂
        cases h₂)
      (fun u h₁ h₂ => by
        simp only [Function.comp, decide_eq_true_eq] at h₁ h₂
        rw [h₁] at h₂
        cases h₂)
  · simp only [List.map_append, List.map_map, List.filter_map, List.map_map]
    exact nodup_two_filters hU _ _
      (fun u h₁ h₂ => by
        simp only [Function.comp] at h₁ h₂
        rw [h₁] at h₂
        cases h₂)

theorem transformChunk_eq_map {mapping : List MappingRow} {full : List FullRow}
    {part : List PartRow} (chunk : List NormRow)
    (hm : ∀ r : NormRow, (mapping.filter (mapMatch r)).length ≤ 1)
    (hf : ∀ r : NormRow, (full.filter (fullMatch r)).length ≤ 1)
    (hp : ∀ r : NormRow, (part.filter (partMatch r)).length ≤ 1) :
    transformChunk mapping full part chunk
      = chunk.map (fun r =>
          resolveRow (mappingFor mapping r) (fullFor full r) (partFor part r) r) := by
  induction chunk with
  | nil => rfl
  | cons r t ih =>
    have hstep : transformChunk mapping full part (r :: t)
        = (listBind (leftMatches (mapMatch r) mapping) fun m =>
            listBind (leftMatches (fullMatch r) full) fun f =>
              (leftMatches (partMatch r) part).map fun q => resolveRow m f q r)
          ++ transformChunk mapping full part t := by
      unfold transformChunk
      rw [listBind_cons]
    rw [hstep, leftMatches_single (hm r), leftMatches_single (hf r),
      leftMatches_single (hp r), listBind_singleton, listBind_singleton,
      List.map_cons, List.map_nil, List.singleton_append, List.map_cons, ih]
    rfl

theorem mapping_filter_le_one (secCols : Bool) (n : Nat)
    (lookup udi : List UdiRow) (maude : List NormRow) (r : NormRow) :
    ((buildUdiMapping secCols n lookup udi maude).filter (mapMatch r)).length ≤ 1 := by
  refine length_filter_le_one_of_keyed (·.udi_combined) r.udi_combined
    (buildUdiMapping_keys_nodup secCols n lookup udi maude) ?_
  intro mr hmr
  obtain ⟨v, hv, hv'⟩ := cellEq_iff.mp (by simpa [mapMatch] using hmr)
  exact hv'.trans hv.symm

theorem full_filter_le_one (udi : List UdiRow) (r : NormRow) :
    ((buildFull udi).filter (fullMatch r)).length ≤ 1 := by
  refine length_filter_le_one_of_keyed
    (fun fr => (fr.manufacturer, fr.brand, fr.catalog_number))
    (r.mfr_std, r.brand, r.catalog_number) ?_ ?_
  · rw [buildFull_keys]
    exact List.nodup_dedup _
  · intro fr hfr
    unfold fullMatch at hfr
    rw [Bool.and_eq_true, Bool.and_eq_true] at hfr
    obtain ⟨⟨h₁, h₂⟩, h₃⟩ := hfr
    obtain ⟨v₁, e₁, e₁'⟩ := cellEq_iff.mp h₁
    obtain ⟨v₂, e₂, e₂'⟩ := cellEq_iff.mp h₂
    obtain ⟨v₃, e₃, e₃'⟩ := cellEq_iff.mp h₃
    simp only [e₁, e₁', e₂, e₂', e₃, e₃']

theorem part_filter_le_one (udi : List UdiRow) (r : NormRow) :
    ((buildPart udi).filter (partMatch r)).length ≤ 1 := by
  refine length_filter_le_one_of_keyed
    (fun pr => (pr.manufacturer, pr.brand))
    (r.mfr_std, r.brand) ?_ ?_
  · rw [buildPart_keys]
    exact List.nodup_dedup _
  · intro pr hpr
    unfold partMatch at hpr
    rw [Bool.and_eq_true] at hpr
    obtain ⟨h₁, h₂⟩ := hpr
    obtain ⟨v₁, e₁, e₁'⟩ := cellEq_iff.mp h₁
    obtain ⟨v₂, e₂, e₂'⟩ := cellEq_iff.mp h₂
    simp only [e₁, e₁', e₂, e₂']

/-- C6: against the built mapping table and composite indices (whose keys are
unique by construction), the chunk transform neither drops nor fans out any
row: it emits exactly one output row per input row, carrying the original
record (the original columns) plus the derived columns; the whole chunked
`process_all` therefore conserves the total row count. -/
theorem c6_row_conservation (secCols : Bool) (n : Nat) (lookup udi : List UdiRow)
    (maude : List NormRow) (chunk rows : List NormRow) :
    (transformChunk (buildUdiMapping secCols n lookup udi maude) (buildFull udi)
        (buildPart udi) chunk).length = chunk.length ∧
    (transformChunk (buildUdiMapping secCols n lookup udi maude) (buildFull udi)
        (buildPart udi) chunk).map (·.orig) = chunk ∧
    (processAll (buildUdiMapping secCols n lookup udi maude) (buildFull udi)
        (buildPart udi) n rows).length = rows.length := by
  have hm := mapping_filter_le_one secCols n lookup udi maude
  have hf := full_filter_le_one udi
  have hp := part_filter_le_one udi
  have hchar := transformChunk_eq_map chunk hm hf hp
  refine ⟨?_, ?_, ?_⟩
  · rw [hchar, List.length_map]
  · rw [hchar, List.map_map]
    exact List.map_id _
  · unfold processAll
    have hcong : (splitChunks n rows).map
        (transformChunk (buildUdiMapping secCols n lookup udi maude) (buildFull udi)
          (buildPart udi))
        = (splitChunks n rows).map (fun c => c.map (fun r =>
            resolveRow (mappingFor (buildUdiMapping secCols n lookup udi maude) r)
              (fullFor (buildFull udi) r) (partFor (buildPart udi) r) r)) :=
      List.map_congr_left (fun c _ => transformChunk_eq_map c hm hf hp)
    show ((splitChunks n rows).map
        (transformChunk (buildUdiMapping secCols n lookup udi maude) (buildFull udi)
          (buildPart udi))).flatten.length = rows.length
    rw [hcong]
    have := listBind_map_flatten (splitChunks n rows) (fun r =>
      resolveRow (mappingFor (buildUdiMapping secCols n lookup udi maude) r)
        (fullFor (buildFull udi) r) (partFor (buildPart udi) r) r)
    unfold listBind at this
    rw [this, splitChunks_flatten, List.length_map]

theorem mem_explodePairs {l : List UdiRow} {p : String × UdiRow} :
    p ∈ explodePairs l ↔ p.2 ∈ l ∧ some p.1 ∈ p.2.secondary_ids := by
  unfold explodePairs listBind
  rw [List.mem_flatten]
  constructor
  · rintro ⟨L, hL, hpL⟩
    rw [List.mem_map] at hL
    obtain ⟨r', hr', rfl⟩ := hL
    rw [List.mem_map] at hpL
    obtain ⟨s, hs, rfl⟩ := hpL
    rw [List.mem_filterMap] at hs
    obtain ⟨c, hc, hcs⟩ := hs
    have hcs' : c = some s := hcs
    exact ⟨hr', hcs' ▸ hc⟩
  · rintro ⟨hr, hs⟩
    refine ⟨(p.2.secondary_ids.filterMap id).map (fun s => (s, p.2)), ?_, ?_⟩
    · exact List.mem_map_of_mem _ hr
    · rw [List.mem_map]
      exact ⟨p.1, List.mem_filterMap.mpr ⟨some p.1, hs, rfl⟩, rfl⟩

theorem mem_viaRows {u : String} {l : List UdiRow} {r : UdiRow} :
    r ∈ viaRows u l ↔ r ∈ l ∧ some u ∈ r.secondary_ids := by
  unfold viaRows
  rw [List.mem_map]
  constructor
  · rintro ⟨p, hp, rfl⟩
    rw [List.mem_filter, decide_eq_true_eq] at hp
    obtain ⟨hp₁, rfl⟩ := hp
    exact mem_explodePairs.mp hp₁
  · rintro ⟨hr, hs⟩
    refine ⟨(u, r), ?_, rfl⟩
    rw [List.mem_filter, decide_eq_true_eq]
    exact ⟨mem_explodePairs.mpr ⟨hr, hs⟩, rfl⟩

theorem viaRows_append (u : String) (l₁ l₂ : List UdiRow) :
    viaRows u (l₁ ++ l₂) = viaRows u l₁ ++ viaRows u l₂ := by
  unfold viaRows explodePairs
  rw [listBind_append, List.filter_append, List.map_append]

theorem dedup_length_append_le (xs ys : List Cell) :
    ((xs ++ ys).dedup).length ≤ xs.dedup.length + ys.dedup.length := by
  rw [← List.card_toFinset, ← List.card_toFinset, ← List.card_toFinset,
    List.toFinset_append]
  exact Finset.card_union_le _ _

theorem dedup_length_pos {xs : List Cell} (h : xs ≠ []) : 1 ≤ xs.dedup.length := by
  have hne : xs.dedup ≠ [] := by
    rw [Ne, List.dedup_eq_nil]
    exact h
  exact List.length_pos.mpr hne

theorem dedup_length_congr {xs ys : List Cell} (h₁ : xs ⊆ ys) (h₂ : ys ⊆ xs) :
    xs.dedup.length = ys.dedup.length := by
  rw [← List.card_toFinset, ← List.card_toFinset]
  congr 1
  apply Finset.ext
  intro a
  simp only [List.mem_toFinset]
  exact ⟨fun h => h₁ h, fun h => h₂ h⟩

theorem filter_eq_of_nodup {l : List String} (h : l.Nodup) (u : String) :
    l.filter (fun s => decide (s = u)) = if u ∈ l then [u] else [] := by
  induction l with
  | nil => simp
  | cons a t ih =>
    rw [List.nodup_cons] at h
    by_cases hau : a = u
    · subst hau
      rw [List.filter_cons_of_pos (by simp)]
      have hnil : t.filter (fun s => decide (s = a)) = [] := by
        rw [List.filter_eq_nil_iff]
        intro s hs
        simp only [decide_eq_true_eq]
        intro hsa
        exact h.1 (hsa ▸ hs)
      rw [hnil, if_pos (List.mem_cons_self a t)]
    · rw [List.filter_cons_of_neg (by simp [hau]), ih h.2]
      by_cases hut : u ∈ t
      · rw [if_pos hut, if_pos (List.mem_cons_of_mem a hut)]
      · rw [if_neg hut, if_neg (by
          rw [List.mem_cons]
          rintro (h' | h')
          · exact hau h'.symm
          · exact hut h')]

theorem viaDistinct_nil (u : String) : viaDistinct u [] = 0 := rfl

theorem viaDistinct_pos {u : String} {c : List UdiRow} (h : viaRows u c ≠ []) :
    1 ≤ viaDistinct u c := by
  unfold viaDistinct
  refine dedup_length_pos ?_
  intro hmap
  exact h (List.map_eq_nil_iff.mp hmap)

theorem viaDistinct_zero_of_nil {u : String} {c : List UdiRow}
    (h : viaRows u c = []) : viaDistinct u c = 0 := by
  unfold viaDistinct
  rw [h]
  rfl

theorem filter_key_map_mk (keys : List String) (mk : String → SecRow)
    (hmk : ∀ s, (mk s).secondary_list = s) (hnd : keys.Nodup) (u : String) :
    (keys.map mk).filter (fun e => decide (e.secondary_list = u))
      = if u ∈ keys then [mk u] else [] := by
  rw [List.filter_map]
  have hcongr : keys.filter ((fun e => decide (e.secondary_list = u)) ∘ mk)
      = keys.filter (fun s => decide (s = u)) :=
    List.filter_congr (fun s _ => by simp [hmk s])
  rw [hcongr, filter_eq_of_nodup hnd u]
  by_cases hmem : u ∈ keys <;> simp [hmem]

theorem chunkTable_nprimary_sum (failed : List String) (c : List UdiRow)
    (u : String) (hu : u ∈ failed) :
    (((secondaryChunkTable failed c).filter
        (fun e => decide (e.secondary_list = u))).map (·.n_primary)).sum
      = viaDistinct u c := by
  have hfurther : ((explodePairs c).filter (fun p => decide (p.1 ∈ failed))).filter
        (fun p => decide (p.1 = u))
      = (explodePairs c).filter (fun p => decide (p.1 = u)) := by
    rw [List.filter_filter]
    refine List.filter_congr ?_
    intro p _
    by_cases hp : p.1 = u
    · simp [hp, hu]
    · simp [hp]
  simp only [secondaryChunkTable]
  rw [filter_key_map_mk _ _ (fun _ => rfl) (List.nodup_dedup _) u]
  by_cases hmem : u ∈ ((((explodePairs c).filter
      (fun p => decide (p.1 ∈ failed))).map (·.1)).dedup)
  · rw [if_pos hmem]
    show (((((explodePairs c).filter (fun p => decide (p.1 ∈ failed))).filter
        (fun p => decide (p.1 = u))).map (·.2)).map (·.udi_di)).dedup.length + 0
      = viaDistinct u c
    rw [hfurther, Nat.add_zero]
    rfl
  · rw [if_neg hmem]
    have hvia : viaRows u c = [] := by
      unfold viaRows
      rw [List.map_eq_nil_iff, List.filter_eq_nil_iff]
      intro p hp
      rw [decide_eq_true_eq]
      intro hpu
      refine hmem ?_
      rw [List.mem_dedup, List.mem_map]
      refine ⟨p, ?_, hpu⟩
      rw [List.mem_filter, decide_eq_true_eq]
      exact ⟨hp, hpu ▸ hu⟩
    rw [viaDistinct_zero_of_nil hvia]
    rfl

theorem sum_over_chunks (failed : List String) (u : String) (hu : u ∈ failed) :
    ∀ cs : List (List UdiRow),
      (((listBind cs (secondaryChunkTable failed)).filter
          (fun e => decide (e.secondary_list = u))).map (·.n_primary)).sum
        = (cs.map (fun c => viaDistinct u c)).sum := by
  intro cs
  induction cs with
  | nil => rfl
  | cons c cs ih =>
    rw [listBind_cons, List.filter_append, List.map_append, List.sum_append, ih,
      chunkTable_nprimary_sum failed c u hu, List.map_cons, List.sum_cons]

theorem merged_entry_nprimary {failed : List String} {n : Nat} {udi : List UdiRow}
    {u : String} {er : SecRow} (hu : u ∈ failed)
    (hfind : (secondaryMerged failed n udi).find?
        (fun er => decide (er.secondary_list = u)) = some er) :
    er.n_primary = ((splitChunks n udi).map (fun c => viaDistinct u c)).sum := by
  have hmem := List.mem_of_find?_eq_some hfind
  have hkey : er.secondary_list = u := by
    have := List.find?_some hfind
    rwa [decide_eq_true_eq] at this
  unfold secondaryMerged at hmem
  rw [List.mem_map] at hmem
  obtain ⟨s, hs, rfl⟩ := hmem
  obtain rfl : u = s := (hkey : s = u).symm
  show (((secondaryConcatTables failed n udi).filter
      (fun e => decide (e.secondary_list = u))).map (·.n_primary)).sum = _
  exact sum_over_chunks failed u hu (splitChunks n udi)

theorem viaDistinct_flatten_le (u : String) :
    ∀ cs : List (List UdiRow),
      viaDistinct u cs.flatten ≤ (cs.map (fun c => viaDistinct u c)).sum := by
  intro cs
  induction cs with
  | nil => simp [viaDistinct_nil]
  | cons c cs ih =>
    rw [List.flatten_cons, List.map_cons, List.sum_cons]
    unfold viaDistinct
    rw [viaRows_append, List.map_append]
    calc (((viaRows u c).map (·.udi_di) ++ (viaRows u cs.flatten).map (·.udi_di)).dedup).length
        ≤ (((viaRows u c).map (·.udi_di)).dedup).length
          + (((viaRows u cs.flatten).map (·.udi_di)).dedup).length :=
          dedup_length_append_le _ _
      _ ≤ viaDistinct u c + (cs.map (fun c => viaDistinct u c)).sum :=
          Nat.add_le_add (Nat.le_refl _) ih

theorem global_of_sum_one {u : String} {cs : List (List UdiRow)}
    (h : (cs.map (fun c => viaDistinct u c)).sum = 1) :
    viaDistinct u cs.flatten = 1 := by
  have hle : viaDistinct u cs.flatten ≤ 1 := h ▸ viaDistinct_flatten_le u cs
  have hex : ∃ c ∈ cs, viaDistinct u c ≠ 0 := by
    by_contra hall
    push_neg at hall
    have hz : (cs.map (fun c => viaDistinct u c)).sum = 0 := by
      refine List.sum_eq_zero ?_
      intro x hx
      rw [List.mem_map] at hx
      obtain ⟨c, hc, rfl⟩ := hx
      exact hall c hc
    omega
  obtain ⟨c, hc, hcz⟩ := hex
  have hvne : viaRows u c ≠ [] := by
    intro hnil
    exact hcz (viaDistinct_zero_of_nil hnil)
  obtain ⟨r, hr⟩ := List.exists_mem_of_ne_nil _ hvne
  obtain ⟨hrc, hrs⟩ := mem_viaRows.mp hr
  have hrglobal : r ∈ viaRows u cs.flatten :=
    mem_viaRows.mpr ⟨List.mem_flatten.mpr ⟨c, hc, hrc⟩, hrs⟩
  have hge : 1 ≤ viaDistinct u cs.flatten :=
    viaDistinct_pos (List.ne_nil_of_mem hrglobal)
  omega

theorem viaDistinct_eq_reachable (udi : List UdiRow) (u : String) :
    viaDistinct u udi = reachableDistinct udi u := by
  unfold viaDistinct reachableDistinct
  refine dedup_length_congr ?_ ?_
  · intro x hx
    rw [List.mem_map] at hx
    obtain ⟨r, hr, rfl⟩ := hx
    obtain ⟨hrl, hrs⟩ := mem_viaRows.mp hr
    rw [List.mem_map]
    refine ⟨r, ?_, rfl⟩
    rw [List.mem_filter, decide_eq_true_eq]
    exact ⟨hrl, hrs⟩
  · intro x hx
    rw [List.mem_map] at hx
    obtain ⟨r, hr, rfl⟩ := hx
    rw [List.mem_filter, decide_eq_true_eq] at hr
    rw [List.mem_map]
    exact ⟨r, mem_viaRows.mpr hr, rfl⟩

/-- C3 amended: a secondary identifier resolves (`udi_secondary`) only if
exactly one distinct primary identifier is reachable through it across the
entire registry — ambiguous secondary identifiers are never guessed.  (The
converse fails: per-chunk distinct counts are summed across chunks, so an
identifier whose registry occurrences span several chunks is left unmatched
even when only one distinct primary is reachable; see the counterexample.) -/
theorem c3_secondary_soundness (secCols : Bool) (n : Nat) (lookup udi : List UdiRow)
    (maude : List NormRow) (mr : MappingRow) (u : String)
    (hm : mr ∈ buildUdiMapping secCols n lookup udi maude)
    (ht : mr.udi_match_type = some "udi_secondary")
    (hu : mr.udi_combined = some u) :
    reachableDistinct udi u = 1 := by
  simp only [buildUdiMapping] at hm
  split at hm
  · simp only [List.mem_append, List.mem_map] at hm
    rcases hm with (⟨e, he, rfl⟩ | ⟨fe, hfe, rfl⟩) | ⟨fe, hfe, rfl⟩
    · have ht' : (some "udi_direct" : Cell) = some "udi_secondary" := ht
      exact absurd (Option.some.inj ht') (by decide)
    · rw [List.mem_filter, decide_eq_true_eq] at hfe
      obtain ⟨hflagged, hflag⟩ := hfe
      cases hfe2 : fe.2 with
      | none =>
        rw [hfe2] at hflag
        simp [secFlagOf] at hflag
      | some er =>
        rw [hfe2] at hflag
        simp only [secFlagOf, Option.map_some', Option.some.injEq,
          decide_eq_true_eq] at hflag
        rw [List.mem_map] at hflagged
        obtain ⟨e, he, rfl⟩ := hflagged
        injection hu with hu'
        have hufailed : u ∈ (primaryFailed lookup maude).map (·.1) :=
          hu' ▸ List.mem_map_of_mem _ he
        have hfind : (secondaryMerged
              ((primaryFailed lookup maude).map (·.1)) n udi).find?
            (fun er => decide (er.secondary_list = e.1)) = some er := hfe2
        rw [hu'] at hfind
        have hnp := merged_entry_nprimary hufailed hfind
        have hsum : ((splitChunks n udi).map (fun c => viaDistinct u c)).sum = 1 := by
          rw [← hnp, hflag]
        have hglobal := global_of_sum_one hsum
        rw [splitChunks_flatten] at hglobal
        rw [← viaDistinct_eq_reachable]
        exact hglobal
    · have ht' : (some "udi_no_match" : Cell) = some "udi_secondary" := ht
      exact absurd (Option.some.inj ht') (by decide)
  · simp only [List.mem_append, List.mem_map] at hm
    rcases hm with ⟨e, he, rfl⟩ | ⟨e, he, rfl⟩
    · have ht' : (some "udi_direct" : Cell) = some "udi_secondary" := ht
      exact absurd (Option.some.inj ht') (by decide)
    · have ht' : (some "udi_no_match" : Cell) = some "udi_secondary" := ht
      exact absurd (Option.some.inj ht') (by decide)

/-- Witness for C3 amended: secondary `S` behind the single primary `P` of a
one-chunk registry resolves as `udi_secondary`, and indeed exactly one
distinct primary is reachable through `S`. -/
theorem c3_secondary_soundness_witness :
    mappingRowS ∈ buildUdiMapping true 5 (buildUdiDiLookup keepFirst [regP1])
      [regP1] [normRowS] ∧
    mappingRowS.udi_match_type = some "udi_secondary" ∧
    mappingRowS.udi_combined = some "S" ∧
    reachableDistinct [regP1] "S" = 1 :=
  ⟨by decide, by decide, by decide,
    c3_secondary_soundness true 5 (buildUdiDiLookup keepFirst [regP1]) [regP1]
      [normRowS] mappingRowS "S" (by decide) (by decide) (by decide)⟩

end UdiEngine
